import Mathlib

/-!
Verification of the NL→SQL pipeline (guard.py, app.py, schema_loader.py,
sql/utils.py) against its natural-language specification.

SQL text is modelled as `List Char`.  Python regular-expression behaviour is
embedded as executable scanning functions; `\w`, `\s` and `\d` are modelled on
their ASCII fragment (all inputs in the repository are ASCII), and `re.I`
case-folding is modelled by ASCII `Char.toLower`.
-/

abbrev Str := List Char

/-- ASCII fragment of Python's regex `\w` class: letters, digits, underscore. -/
def isWordChar (c : Char) : Bool := c.isAlphanum || c = '_'

/-- ASCII fragment of Python's `str.strip` / regex `\s` whitespace set. -/
def pySpaceChar (c : Char) : Bool :=
  c = ' ' || c = '\t' || c = '\n' || c = '\r' || c = '\x0b' || c = '\x0c'

/-- A regex word boundary holds before a word character when the previous
character (if any) is not a word character. -/
def boundaryOk : Option Char → Bool
  | none => true
  | some c => !isWordChar c

def pyLower (s : Str) : Str := s.map Char.toLower

def pyUpper (s : Str) : Str := s.map Char.toUpper

def pyLstrip (s : Str) : Str := s.dropWhile pySpaceChar

def pyRstrip (s : Str) : Str := (s.reverse.dropWhile pySpaceChar).reverse

def pyStrip (s : Str) : Str := pyLstrip (pyRstrip s)

/-- Case-insensitive character equality (ASCII, as used by `re.I`). -/
def ciEqChar (a b : Char) : Bool := a.toLower = b.toLower

/-- Case-insensitive "the pattern is a prefix of the text". -/
def ciPref : Str → Str → Bool
  | [], _ => true
  | _ :: _, [] => false
  | p :: ps, c :: cs => ciEqChar p c && ciPref ps cs

/-- The banned keywords of guard.py's `DDL_DML` regex (also inlined in
app.py's `is_select_only_tol`). -/
def ddlWords : List Str :=
  ["UPDATE", "DELETE", "INSERT", "DROP", "ALTER", "TRUNCATE", "CREATE",
   "GRANT", "REVOKE"].map String.toList

/-- Whole-word, case-insensitive match of `w` at the head of `s`
(the trailing `\b`: the character right after the word, if any, is not a
word character; all banned words end in a word character). -/
def wordAtWholeCI (w : Str) (s : Str) : Bool :=
  ciPref w s && boundaryOk ((s.drop w.length).head?)

/-- Scan for `\b(UPDATE|DELETE|...)\b` case-insensitively; `prev` is the
character before the current position. -/
def ddlSearchGo (prev : Option Char) : Str → Bool
  | [] => false
  | c :: cs =>
    (boundaryOk prev && ddlWords.any (fun w => wordAtWholeCI w (c :: cs)))
      || ddlSearchGo (some c) cs

def ddlSearch (s : Str) : Bool := ddlSearchGo none s

/-- guard.py `is_select_only`: the stripped upper-cased text starts with
SELECT and the (original) text contains no banned keyword as a whole word. -/
def is_select_only (sql : Str) : Bool :=
  List.isPrefixOf "SELECT".toList (pyUpper (pyStrip sql)) && !ddlSearch sql

/-- One scanning pass of `re.sub(r'\\([^()]*\\)', ' ', s)`, advancing one
character per step; `skip` counts characters still owned by the group that
was just replaced.  At a `(` whose following span of non-parenthesis
characters is closed by `)`, the whole group becomes a single space and
scanning resumes after the `)`. -/
def stripOnceGo (skip : Nat) : Str → Str
  | [] => []
  | c :: cs =>
    match skip with
    | k + 1 => stripOnceGo k cs
    | 0 =>
      if c = '(' then
        match cs.drop ((cs.takeWhile (fun d => d ≠ '(' && d ≠ ')')).length) with
        | ')' :: _ =>
          ' ' :: stripOnceGo ((cs.takeWhile (fun d => d ≠ '(' && d ≠ ')')).length + 1) cs
        | _ => c :: stripOnceGo 0 cs
      else c :: stripOnceGo 0 cs

def stripOnce (s : Str) : Str := stripOnceGo 0 s

/-- guard.py's inner `strip_parentheses`, the `while previous != s` loop.
The loop is given `s.length` iterations, which always suffices to reach the
fixpoint: a pass that changes the text replaces at least one parenthesized
group (length ≥ 2) by one space, so it strictly shortens the text, and the
length can shrink at most `s.length` times. -/
def stripLoop : Nat → Str → Str
  | 0, s => s
  | fuel + 1, s =>
    let t := stripOnce s
    if t = s then s else stripLoop fuel t

def strip_parentheses (s : Str) : Str := stripLoop s.length s

/-- Character class of the capture group `([a-zA-Z0-9_."]+)`. -/
def identClassChar (c : Char) : Bool :=
  c.isAlphanum || c = '_' || c = '.' || c = '"'

/-- After the keyword of `\b<kw>\s+([a-zA-Z0-9_."]+)` matched at the head
of `s`: require at least one whitespace character, then capture the longest
nonempty identifier-class run; returns the capture and the total number of
characters the match consumed. -/
def kwCapStep (kw : Str) (s : Str) : Option (Str × Nat) :=
  let rest := s.drop kw.length
  let sp := rest.takeWhile pySpaceChar
  if sp.isEmpty then none
  else
    let rest2 := rest.drop sp.length
    let ident := rest2.takeWhile identClassChar
    if ident.isEmpty then none
    else some (ident, kw.length + sp.length + ident.length)

/-- `re.findall(r'\b<kw>\s+([a-zA-Z0-9_."]+)', s, re.I)`: scan left to
right, one character per step (`skip` counts characters still owned by the
previous match); on a whole-word keyword followed by whitespace and an
identifier, record the identifier and resume after it. -/
def kwCapturesGo (kw : Str) (skip : Nat) (prev : Option Char) : Str → List Str
  | [] => []
  | c :: cs =>
    match skip with
    | k + 1 => kwCapturesGo kw k (some c) cs
    | 0 =>
      if boundaryOk prev && ciPref kw (c :: cs) then
        match kwCapStep kw (c :: cs) with
        | some (ident, consumed) => ident :: kwCapturesGo kw (consumed - 1) (some c) cs
        | none => kwCapturesGo kw 0 (some c) cs
      else kwCapturesGo kw 0 (some c) cs

/-- Python `s.strip('"')`: remove all leading and trailing `"` characters. -/
def stripQuotes (s : Str) : Str :=
  ((s.dropWhile (fun c => c = '"')).reverse.dropWhile (fun c => c = '"')).reverse

/-- Python `s.split(".")[-1]`: the last dot-separated segment. -/
def lastDotSeg (s : Str) : Str := (s.splitOn '.').getLast?.getD []

/-- The normalized table references found by guard.py `whitelist_ok`:
captures after FROM and after JOIN on the parenthesis-stripped statement,
each with surrounding quotes stripped and only the last dot-segment kept. -/
def foundTables (sql : Str) : List Str :=
  let cleaned := strip_parentheses sql
  (kwCapturesGo "from".toList 0 none cleaned
      ++ kwCapturesGo "join".toList 0 none cleaned).map
    (fun f => lastDotSeg (stripQuotes f))

/-- guard.py `whitelist_ok`. -/
def whitelist_ok (sql : Str) (allowed_tables : List Str) : Bool :=
  (foundTables sql).all (fun t => allowed_tables.contains t)

/-- Decimal digits of a natural number (structured with a fuel argument;
a number below `10^fuel` needs at most `fuel` digits, and `n + 1` digits
always suffice for `n`). -/
def natDigitsAux : Nat → Nat → Str
  | 0, _ => []
  | fuel + 1, n =>
    if n < 10 then [Nat.digitChar n]
    else natDigitsAux fuel (n / 10) ++ [Nat.digitChar (n % 10)]

/-- Decimal digits of a natural number, as produced by Python `f"{n}"`. -/
def natDigits (n : Nat) : Str := natDigitsAux (n + 1) n

/-- Python `f"{n}"` for an `int`. -/
def intRepr (n : Int) : Str :=
  if n < 0 then '-' :: natDigits n.natAbs else natDigits n.toNat

/-- Match of `limit\s+\d+` (case-insensitive) at the head of `s`. -/
def limitAt (s : Str) : Bool :=
  ciPref "limit".toList s &&
    (let r := s.drop 5
     let sp := r.takeWhile pySpaceChar
     !sp.isEmpty &&
       (match r.drop sp.length with
        | d :: _ => d.isDigit
        | [] => false))

/-- Scan for `\blimit\s+\d+` (case-insensitive). -/
def containsLimitGo (prev : Option Char) : Str → Bool
  | [] => false
  | c :: cs => (boundaryOk prev && limitAt (c :: cs)) || containsLimitGo (some c) cs

/-- Python `s.rstrip(" ;")`. -/
def pyRstripSemi (s : Str) : Str :=
  (s.reverse.dropWhile (fun c => c = ' ' || c = ';')).reverse

/-- guard.py `ensure_limit`. -/
def ensure_limit (sql : Str) (default_limit : Int) : Str :=
  if containsLimitGo none sql then sql
  else pyRstripSemi sql ++ " LIMIT ".toList ++ intRepr default_limit ++ [';']

/-- Python `s.replace(pat, rep)` for nonempty `pat`: left-to-right,
non-overlapping, the replacement text is not rescanned (`skip` counts
characters still owned by the previous match). -/
def plainReplaceGo (pat rep : Str) (skip : Nat) : Str → Str
  | [] => []
  | c :: cs =>
    match skip with
    | k + 1 => plainReplaceGo pat rep k cs
    | 0 =>
      if !pat.isEmpty && List.isPrefixOf pat (c :: cs) then
        rep ++ plainReplaceGo pat rep (pat.length - 1) cs
      else c :: plainReplaceGo pat rep 0 cs

def plainReplace (pat rep s : Str) : Str := plainReplaceGo pat rep 0 s

/-- app.py `clean_sql_output` step 1: remove all fence markers,
`s.replace("```sql", "").replace("```SQL", "").replace("```", "")`. -/
def removeFences (s : Str) : Str :=
  plainReplace "```".toList []
    (plainReplace "```SQL".toList [] (plainReplace "```sql".toList [] s))

/-- The suffix of `s` starting at the first case-insensitive `SELECT`. -/
def findSel : Str → Option Str
  | [] => none
  | c :: cs =>
    if ciPref "select".toList (c :: cs) then some (c :: cs) else findSel cs

/-- Index of the first `;`. -/
def semiIdx : Str → Option Nat
  | [] => none
  | c :: cs => if c = ';' then some 0 else (semiIdx cs).map (· + 1)

/-- app.py `clean_sql_output`: strip, drop fence markers, then keep the
first `SELECT ... ;` span (`re.search(r"(SELECT[\s\S]*?);", s, re.I)`,
group plus the semicolon), else everything from the first `SELECT` on, else
the text as is; finally strip.  The leftmost-shortest regex match starts at
the first case-insensitive SELECT and ends at the first `;` at least six
characters later (the six SELECT letters themselves are never `;`). -/
def clean_sql_output (raw : Str) : Str :=
  if raw.isEmpty then []
  else
    let s := removeFences (pyStrip raw)
    match findSel s with
    | none => pyStrip s
    | some t =>
      match semiIdx (t.drop 6) with
      | some j => pyStrip (t.take (6 + j + 1))
      | none => pyStrip t

/-- The trailing `\b` of `\bTi\b`: the next character, if any, is not a
word character (the pattern always ends in a digit, a word character). -/
def wordTailOk : Str → Bool
  | [] => true
  | d :: _ => !isWordChar d

/-- `re.sub(rf'\bTi\b', t, s)` for the handle patterns, whose first and
last characters are word characters: scan one character per step (`skip`
counts characters still owned by the previous match, whose replacement is
not rescanned); a whole-word occurrence of `pat` is replaced by `rep`. -/
def subWordGo (pat rep : Str) (skip : Nat) (prev : Option Char) : Str → Str
  | [] => []
  | c :: cs =>
    match skip with
    | k + 1 => subWordGo pat rep k (some c) cs
    | 0 =>
      if boundaryOk prev && List.isPrefixOf pat (c :: cs)
          && wordTailOk (List.drop pat.length (c :: cs)) then
        rep ++ subWordGo pat rep (pat.length - 1) (some c) cs
      else c :: subWordGo pat rep 0 (some c) cs

def subWord (pat rep s : Str) : Str := subWordGo pat rep 0 none s

/-- The handle `Ti`. -/
def handleStr (i : Nat) : Str := 'T' :: natDigits i

/-- `"x"` with double quotes around it. -/
def quotedStr (x : Str) : Str := '"' :: (x ++ ['"'])

/-- The loop of app.py `replace_handles_with_tables`:
`enumerate(tables, start=i)`, each step substituting the whole-word handle
and then the quoted handle. -/
def rhGo (i : Nat) (tables : List Str) (sql : Str) : Str :=
  match tables with
  | [] => sql
  | t :: ts =>
    rhGo (i + 1) ts
      (plainReplace (quotedStr (handleStr i)) (quotedStr t)
        (subWord (handleStr i) t sql))

/-- app.py `replace_handles_with_tables` (the later, surviving definition;
both definitions in the file perform the same two substitutions). -/
def replace_handles_with_tables (sql : Str) (tables : List Str) : Str :=
  rhGo 1 tables sql

/-- app.py `is_select_only_tol`: strip leading whitespace, then leading `(`
characters; the first six characters upper-cased must be `SELECT`, and the
(trimmed) text must contain no banned keyword as a whole word.  Note that
this scans the whole remaining text, parenthesized content included. -/
def is_select_only_tol (sql : Str) : Bool :=
  (pyUpper (((pyLstrip sql).dropWhile (fun c => c = '(')).take 6)
      = "SELECT".toList)
    && !ddlSearch ((pyLstrip sql).dropWhile (fun c => c = '('))

/-- Outcome of the guard sequence of app.py's `/ask` endpoint. -/
inductive AskVerdict where
  | rejectedReadOnly : AskVerdict
  | rejectedWhitelist : AskVerdict
  | authorized : Str → AskVerdict
deriving DecidableEq

/-- The guard sequence of app.py `ask` applied to the handle-resolved
statement: `is_select_only` (the strict guard.py variant, as imported
there), then `whitelist_ok`, then `ensure_limit`. -/
def ask_guard (sql_replaced : Str) (tables : List Str) (limit : Int) :
    AskVerdict :=
  if !is_select_only sql_replaced then AskVerdict.rejectedReadOnly
  else if !whitelist_ok sql_replaced tables then AskVerdict.rejectedWhitelist
  else AskVerdict.authorized (ensure_limit sql_replaced limit)

/-- `true` when the first character, if any, is not a word character. -/
def headNonWordB (c : Str) : Bool :=
  match c.head? with
  | none => true
  | some d => !isWordChar d

/-- `true` when the last character, if any, is not a word character. -/
def lastNonWordB (c : Str) : Bool :=
  match c.getLast? with
  | none => true
  | some d => !isWordChar d

/-- The last character of `x`, or `p` when `x` is empty: the "previous
character" after scanning past `x`. -/
def lastOr (p : Option Char) (x : Str) : Option Char :=
  match x.getLast? with
  | some d => some d
  | none => p

/-- The text contains neither handle token of a two-table Context Pack. -/
def NoHandles (l : Str) : Prop :=
  ¬ ['T', '1'] <:+: l ∧ ¬ ['T', '2'] <:+: l

/-- A statement decomposed into chunks separated by item slots: `c0` is the
text before the first item and each pair `(j, c)` is an item index followed
by the chunk after it.  The items of the rendering are given by `f`. -/
def joinSegs (f : Fin 2 → Str) (ps : List (Fin 2 × Str)) : Str :=
  (ps.map (fun p => f p.1 ++ p.2)).flatten

def renderSegs (f : Fin 2 → Str) (c0 : Str) (ps : List (Fin 2 × Str)) : Str :=
  c0 ++ joinSegs f ps

/-- Well-formedness of a decomposition for a fixed two-character pattern:
no chunk contains the pattern, every chunk standing before an item ends in
a non-word character, every chunk after an item starts with a non-word
character (so items sit at word boundaries), and only the final chunk may
be empty. -/
def SegsOkP (pat : Str) : Str → List (Fin 2 × Str) → Prop
  | c0, [] => ¬ pat <:+: c0
  | c0, (_, c) :: rest =>
    ¬ pat <:+: c0 ∧ lastNonWordB c0 = true
      ∧ (c ≠ [] → headNonWordB c = true) ∧ (rest ≠ [] → c ≠ [])
      ∧ SegsOkP pat c rest

/-- Well-formedness of a decomposition with handle-free chunks. -/
def SegsOk : Str → List (Fin 2 × Str) → Prop
  | c0, [] => NoHandles c0
  | c0, (_, c) :: rest =>
    NoHandles c0 ∧ lastNonWordB c0 = true
      ∧ (c ≠ [] → headNonWordB c = true) ∧ (rest ≠ [] → c ≠ [])
      ∧ SegsOk c rest

/-- A table name fit for handle substitution: nonempty, made of word
characters, and free of handle tokens. -/
def TableOk (t : Str) : Prop :=
  t ≠ [] ∧ t.all isWordChar = true ∧ NoHandles t

/-- The substitution described by the spec's round-trip property: the text
"produced by substituting A→T1, B→T2" is built with the same two whole-word
plus quoted substitutions that the handle resolver performs, in the reverse
direction (table name `i` replaced by handle `Ti`). -/
def fwGo (i : Nat) (tables : List Str) (sql : Str) : Str :=
  match tables with
  | [] => sql
  | t :: ts =>
    fwGo (i + 1) ts
      (plainReplace (quotedStr t) (quotedStr (handleStr i))
        (subWord t (handleStr i) sql))

def specForwardSubst (sql : Str) (tables : List Str) : Str := fwGo 1 tables sql

/-- The items of the handle-side rendering: `T1`, `T2`. -/
def itemHandles : Fin 2 → Str := fun j => handleStr (j.val + 1)

/-- The items after the handle `T1` has been resolved to the first table. -/
def itemMixed (A : Str) : Fin 2 → Str := fun j => if j.val = 0 then A else ['T', '2']

/-- The items of the table-side rendering: the real table names. -/
def itemTables (A B : Str) : Fin 2 → Str := fun j => [A, B].get j

/-- Column metadata as parsed by schema_loader.py `load_schema`:
`{"type": ..., "description": ...}`. -/
structure ColMeta where
  ctype : Option Str
  cdesc : Str
deriving DecidableEq

/-- Table metadata as parsed by schema_loader.py `load_schema`; `columns`
keeps the source (Python dict insertion) order. -/
structure TableInfo where
  description_table : Str
  aliases : List Str
  columns : List (Str × ColMeta)
deriving DecidableEq

/-- The catalog: table name to metadata, in iteration order. -/
abbrev Schema := List (Str × TableInfo)

/-- Maximal runs of characters satisfying `p` (the matches of the regex
`X+` for a character class `X`); `cur` holds the current run reversed. -/
def runsByGo (p : Char → Bool) (cur : Str) : Str → List Str
  | [] => if cur.isEmpty then [] else [cur.reverse]
  | c :: cs =>
    if p c then runsByGo p (c :: cur) cs
    else if cur.isEmpty then runsByGo p [] cs
    else cur.reverse :: runsByGo p [] cs

def runsBy (p : Char → Bool) (s : Str) : List Str := runsByGo p [] s

/-- Python `str.split()` with no argument: whitespace-separated words. -/
def pySplitWs (s : Str) : List Str := runsBy (fun c => !pySpaceChar c) s

/-- Python `s.replace(a, b)` for single characters. -/
def replaceChar (a b : Char) (s : Str) : Str :=
  s.map (fun c => if c = a then b else c)

/-- Python substring containment `pat in s`. -/
def containsSub (pat s : Str) : Bool := decide (pat <:+: s)

/-- Python string `<` (lexicographic by code point, a proper prefix is
smaller). -/
def strLt : Str → Str → Bool
  | [], [] => false
  | [], _ :: _ => true
  | _ :: _, [] => false
  | a :: as, b :: bs => if a < b then true else if b < a then false else strLt as bs

/-- The table score of schema_loader.py `pick_tables_for_question`: 3 per
question word occurring in the lower-cased table description (substring
containment, counted with multiplicity over the word list), 2 per name or
alias occurring in the question, 1 per column name among the first 30
occurring in the question. -/
def scoreTable (q : Str) (words : List Str) (tname : Str)
    (tinfo : TableInfo) : Nat :=
  let desc := pyLower tinfo.description_table
  (if desc ≠ [] then 3 * words.countP (fun w => containsSub w desc) else 0)
    + 2 * (tname :: tinfo.aliases).countP
        (fun tok => !tok.isEmpty && containsSub (pyLower tok) q)
    + ((tinfo.columns.map (fun pr => pr.1)).take 30).countP
        (fun cname => containsSub (pyLower cname) q)

/-- The `(score, name)` pairs of the tables with nonzero score, in catalog
order (the `scores` list of `pick_tables_for_question`). -/
def scoredTables (schema : Schema) (question : Str) : List (Nat × Str) :=
  let q := pyLower question
  let words := pySplitWs (replaceChar ';' ' ' (replaceChar ',' ' ' q))
  schema.filterMap (fun pr =>
    let score := scoreTable q words pr.1 pr.2
    if score ≠ 0 then some (score, pr.1) else none)

/-- `a` sorts before `b` under Python's `scores.sort(reverse=True)`:
descending lexicographic comparison of the `(score, name)` tuple. -/
def pickGeB (a b : Nat × Str) : Bool :=
  decide (b.1 < a.1) || (a.1 == b.1 && !strLt a.2 b.2)

/-- schema_loader.py `pick_tables_for_question`: keep positively scored
tables, sort by descending `(score, name)`, truncate to `top_k`, and fall
back to the first 3 tables when the result is empty. -/
def pick_tables_for_question (schema : Schema) (question : Str)
    (top_k : Nat) : List Str :=
  let res := ((List.insertionSort (fun a b => pickGeB a b = true)
      (scoredTables schema question)).take top_k).map (fun pr => pr.2)
  if res = [] then (schema.map (fun pr => pr.1)).take 3 else res

/-- The one-table catalog of the C8 witness. -/
def w8schema : Schema := [("ZZ".toList, ⟨[], [], []⟩)]

/-- The semantic column kinds of schema_loader.py `_sqltype_kind`. -/
inductive SqlKind where
  | kdate : SqlKind
  | knumber : SqlKind
  | ktext : SqlKind
  | kbool : SqlKind
  | kother : SqlKind
deriving DecidableEq

/-- schema_loader.py `_sqltype_kind`: case-insensitive substring rules in
priority order; a missing or empty type string maps to `other`. -/
def sqltype_kind (sql_type : Option Str) : SqlKind :=
  match sql_type with
  | none => SqlKind.kother
  | some ty =>
    if ty = [] then SqlKind.kother
    else
      let t := pyUpper ty
      if ["DATE", "TIMESTAMP", "TIME"].any
          (fun kw => containsSub kw.toList t) then SqlKind.kdate
      else if ["INT", "NUM", "DEC", "FLOAT", "DOUBLE", "REAL"].any
          (fun kw => containsSub kw.toList t) then SqlKind.knumber
      else if ["CHAR", "TEXT", "STRING", "CLOB"].any
          (fun kw => containsSub kw.toList t) then SqlKind.ktext
      else if containsSub "BOOL".toList t then SqlKind.kbool
      else SqlKind.kother

/-- Match of `YEAR_RE`, `\b(20[0-9]{2})\b`, at the head of `s` (the leading
boundary is the scanner's; any matched year lies in 2000..2099, so the
range filter of `_extract_years` never discards a match). -/
def yearAt : Str → Bool
  | '2' :: '0' :: d1 :: d2 :: rest =>
    d1.isDigit && d2.isDigit &&
      (match rest with
       | [] => true
       | e :: _ => !isWordChar e)
  | _ => false

def hasYearGo (prev : Option Char) : Str → Bool
  | [] => false
  | c :: cs => (boundaryOk prev && yearAt (c :: cs)) || hasYearGo (some c) cs

/-- Nonemptiness of schema_loader.py `_extract_years(question)`. -/
def hasYear (question : Str) : Bool := hasYearGo none question

def dateWords : List Str :=
  ["date", "année", "an", "mois", "jour", "semaine", "trimestre", "semestre",
   "y", "year", "month", "day"].map String.toList

def numWords : List Str :=
  ["combien", "total", "somme", "moyenne", "count", "avg", "sum", "min",
   "max", "écart", "répartition", "top", "%", "percent", "pourcentage",
   "nb"].map String.toList

def textWords : List Str :=
  ["nom", "name", "titre", "code", "libellé", "description", "contient",
   "like", "ilike"].map String.toList

/-- The character class `[a-zà-ÿ%><=]` of `_expected_kinds`' tokenizer. -/
def qTokClass (c : Char) : Bool :=
  ('a' ≤ c && c ≤ 'z') || ('à' ≤ c && c ≤ 'ÿ')
    || c = '%' || c = '>' || c = '<' || c = '='

/-- schema_loader.py `_expected_kinds`: the column kinds suggested by the
question's words (and by an explicit year for dates); only membership and
emptiness of the set are ever used, so a list represents it. -/
def expected_kinds (question : Str) : List SqlKind :=
  let words := runsBy qTokClass (pyLower question)
  (if words.any (fun w => dateWords.contains w) || hasYear question
    then [SqlKind.kdate] else [])
  ++ (if words.any (fun w => numWords.contains w) then [SqlKind.knumber] else [])
  ++ (if words.any (fun w => textWords.contains w) then [SqlKind.ktext] else [])

/-- The character class `[a-z0-9_à-ÿ]` of `pick_columns_for_table`'s
question tokenizer. -/
def colTokClass (c : Char) : Bool :=
  ('a' ≤ c && c ≤ 'z') || c.isDigit || c = '_' || ('à' ≤ c && c ≤ 'ÿ')

/-- The fixed must-keep column set of `pick_columns_for_table`. -/
def mustKeepNames : List Str :=
  ["ID", "PROJECT_ID", "NAME", "CODE", "START_DATE", "END_DATE"].map
    String.toList

/-- The per-column score of `pick_columns_for_table` (scores can go
negative when a year is present and the column is not a date). -/
def scoreColumn (kinds : List SqlKind) (years : Bool) (tokens : List Str)
    (col : Str) (meta : ColMeta) : Int :=
  let cname := pyLower col
  let cdesc := pyLower meta.cdesc
  let ckind := sqltype_kind meta.ctype
  (if !kinds.isEmpty && kinds.contains ckind then 3 else 0)
    + (if years then (if ckind = SqlKind.kdate then 3 else -1) else 0)
    + (if tokens.any (fun tok => !tok.isEmpty && containsSub tok cname)
        then 2 else 0)
    + (if !cdesc.isEmpty
          && tokens.any (fun tok => !tok.isEmpty && containsSub tok cdesc)
        then 1 else 0)
    + (if col = "ID".toList || List.isSuffixOf "_ID".toList col then 4 else 0)
    + (if col = "NAME".toList || col = "CODE".toList then 3 else 0)
    + (if col = "START_DATE".toList || col = "END_DATE".toList then 3 else 0)

/-- The `(score, col)` pairs of a table's columns, in column order. -/
def scoredColumns (tinfo : TableInfo) (question : Str) : List (Int × Str) :=
  let kinds := expected_kinds question
  let years := hasYear question
  let tokens := runsBy colTokClass (pyLower question)
  tinfo.columns.map (fun pr => (scoreColumn kinds years tokens pr.1 pr.2, pr.1))

/-- `a` sorts before `b` under `scores.sort(key=lambda x: (-x[0], x[1]))`:
score descending, then column name ascending. -/
def colLeB (a b : Int × Str) : Bool :=
  decide (b.1 < a.1) || (a.1 == b.1 && !strLt b.2 a.2)

/-- The first selection loop of `pick_columns_for_table`: walk the sorted
column names, append unseen ones, and stop as soon as the picked list has
reached `max_cols` entries. -/
def phase1Pick (max_cols : Nat) : List Str → List Str → List Str
  | [], picked => picked
  | c :: rest, picked =>
    let picked2 := if picked.contains c then picked else picked ++ [c]
    if max_cols ≤ picked2.length then picked2
    else phase1Pick max_cols rest picked2

/-- The force-append loop of `pick_columns_for_table`: add missing
must-keep columns while the cap is not reached. -/
def mustKeepAppend (max_cols : Nat) (must_keep picked : List Str) :
    List Str :=
  must_keep.foldl (fun acc c =>
    if !acc.contains c && acc.length < max_cols then acc ++ [c] else acc)
    picked

/-- schema_loader.py `pick_columns_for_table` on a table's metadata. -/
def pickColumnsCore (tinfo : TableInfo) (question : Str) (max_cols : Nat) :
    List Str :=
  let sortedNames := (List.insertionSort (fun a b => colLeB a b = true)
      (scoredColumns tinfo question)).map (fun pr => pr.2)
  let must_keep := mustKeepNames.filter
      (fun c => (tinfo.columns.map (fun pr => pr.1)).contains c)
  mustKeepAppend max_cols must_keep (phase1Pick max_cols sortedNames [])

/-- schema_loader.py `pick_columns_for_table`; `schema["tables"][table]`
raises a `KeyError` for an unknown table, modelled as `none`. -/
def pick_columns_for_table (schema : Schema) (table : Str) (question : Str)
    (max_cols : Nat) : Option (List Str) :=
  (List.lookup table schema).map
    (fun tinfo => pickColumnsCore tinfo question max_cols)

/-- The two-column table of the C9 counterexample: `X_ID` (numeric) scores
7 on the question `total`, the must-keep column `ID` (text) scores 4. -/
def w9wide : TableInfo :=
  ⟨[], [], [("X_ID".toList, ⟨some "INT".toList, []⟩),
            ("ID".toList, ⟨some "VARCHAR".toList, []⟩)]⟩

/-- The one-column table of the C9 witness. -/
def w9small : TableInfo := ⟨[], [], [("ID".toList, ⟨some "NUMBER".toList, []⟩)]⟩

/-- The `\s*=\s*(\d+)` tail of the coercion pattern, tried at `u` with
`consumed` characters of group 1 already matched: maximal whitespace, `=`,
maximal whitespace, then at least one digit (whitespace, `=` and digits
are disjoint classes, so the greedy match is the only one).  Returns the
total group-1 length and the digit count. -/
def tryEq (u : Str) (consumed : Nat) : Option (Nat × Nat) :=
  let sp1 := (u.takeWhile pySpaceChar).length
  match u.drop sp1 with
  | '=' :: v =>
    let sp2 := (v.takeWhile pySpaceChar).length
    let ds := ((v.drop sp2).takeWhile Char.isDigit).length
    if ds = 0 then none else some (consumed + sp1 + 1 + sp2, ds)
  | _ => none

/-- Consume a leading double quote, the `\"?` atom of the coercion
pattern: `some` of the rest when the text starts with `"`. -/
def quoteSplit : Str → Option Str
  | '"' :: u => some u
  | _ => none

/-- Whether the text starts with a dot (the `.` closing the optional
`\w+\.` qualifier). -/
def isDotHead : Str → Bool
  | '.' :: _ => true
  | _ => false

/-- The `col\"?` part: the case-insensitive column name, then the optional
closing quote tried greedily (with backtracking to the unquoted branch). -/
def tryFromCol (col : Str) (t1 : Str) (consumed : Nat) : Option (Nat × Nat) :=
  if ciPref col t1 then
    match (match quoteSplit (t1.drop col.length) with
           | some u => tryEq u (consumed + col.length + 1)
           | none => none) with
    | some r => some r
    | none => tryEq (t1.drop col.length) (consumed + col.length)
  else none

/-- The `\"?col\"?\s*=\s*(\d+)` part: the optional opening quote tried
greedily, with backtracking to the unquoted branch. -/
def colPart (col : Str) (t : Str) : Option (Nat × Nat) :=
  match (match quoteSplit t with
         | some u => tryFromCol col u 1
         | none => none) with
  | some r => some r
  | none => tryFromCol col t 0

/-- Match of `((?:\w+\.)?\"?col\"?\s*=\s*)(\d+)` (case-insensitive) at the
head of `s`: the optional qualifier `\w+\.` can only consume the maximal
word run followed by a dot (a dot is not a word character), and if the rest
of the pattern fails after it the engine backtracks to the empty qualifier.
Returns the group-1 length and the digit-literal length. -/
def matchEqLit (col : Str) (s : Str) : Option (Nat × Nat) :=
  let r := (s.takeWhile isWordChar).length
  match (if r = 0 then none
         else if isDotHead (s.drop r) then
           (colPart col (s.drop (r + 1))).map (fun p => (p.1 + r + 1, p.2))
         else none) with
  | some res => some res
  | none => colPart col s

/-- `re.sub` of the coercion pattern, replacement `group1'group2'`: scan
one character per step (`skip` counts characters still owned by the
previous match); at a match, emit group 1, the quoted digits, and resume
after the digits. -/
def coerceSubGo (col : Str) (skip : Nat) : Str → Str
  | [] => []
  | c :: cs =>
    match skip with
    | k + 1 => coerceSubGo col k cs
    | 0 =>
      match matchEqLit col (c :: cs) with
      | some (n1, n2) =>
        (c :: cs).take n1
          ++ '\'' :: (((c :: cs).drop n1).take n2
            ++ '\'' :: coerceSubGo col (n1 + n2 - 1) cs)
      | none => c :: coerceSubGo col 0 cs

def coerceSub (col : Str) (s : Str) : Str := coerceSubGo col 0 s

/-- sql/utils.py `coerce_numeric_string_literals`: for every column of the
catalog whose kind is text or bool (tables and columns in catalog order),
rewrite `col = <digits>` comparisons to quote the digits. -/
def coerce_numeric_string_literals (sql : Str) (schema : Schema) : Str :=
  schema.foldl (fun s pr =>
    pr.2.columns.foldl (fun s2 prc =>
      if sqltype_kind prc.2.ctype = SqlKind.ktext
          || sqltype_kind prc.2.ctype = SqlKind.kbool
      then coerceSub prc.1 s2 else s2) s) sql

/-- The catalog used in the C10 theorems: one table with a text column
`FLAG` and a numeric column `AMOUNT`. -/
def w10schema : Schema :=
  [("T".toList, ⟨[], [], [("FLAG".toList, ⟨some "VARCHAR".toList, []⟩),
                          ("AMOUNT".toList, ⟨some "NUMBER".toList, []⟩)]⟩)]

/-- Whether `pat` occurs case-insensitively anywhere in `s` (as `ciPref`
at some suffix).  Every match of the coercion pattern for column `col`
contains such an occurrence of `col`, so its absence means no rewrite. -/
def hasCIOcc (pat : Str) : Str → Bool
  | [] => false
  | c :: cs => ciPref pat (c :: cs) || hasCIOcc pat cs

/-- A catalog with a text column `A` and a numeric column `BA`: the
coercion pattern has no word boundary, so the `A` substitution also fires
inside a `BA = 1` comparison. -/
def w10bschema : Schema :=
  [("T".toList, ⟨[], [], [("A".toList, ⟨some "VARCHAR".toList, []⟩),
                          ("BA".toList, ⟨some "NUMBER".toList, []⟩)]⟩)]

theorem natDigitsAux_digits (fuel : Nat) :
    ∀ n c, c ∈ natDigitsAux fuel n → c.isDigit = true ∧ pySpaceChar c = false := by
  induction fuel with
  | zero => intro n c hc; simp [natDigitsAux] at hc
  | succ fuel ih =>
    intro n c hc
    unfold natDigitsAux at hc
    split at hc
    · rename_i hn
      simp at hc
      subst hc
      interval_cases n <;> simp [Nat.digitChar, pySpaceChar]
    · rw [List.mem_append] at hc
      rcases hc with hc | hc
      · exact ih _ _ hc
      · simp at hc
        subst hc
        have hlt : n % 10 < 10 := Nat.mod_lt _ (by omega)
        set m := n % 10 with hm
        clear_value m
        interval_cases m <;> simp [Nat.digitChar, pySpaceChar]

theorem natDigits_ne_nil (n : Nat) : natDigits n ≠ [] := by
  unfold natDigits natDigitsAux
  split
  · simp
  · simp

theorem containsLimitGo_step (p : Option Char) (c : Char) (rest : Str)
    (h : containsLimitGo (some c) rest = true) :
    containsLimitGo p (c :: rest) = true := by
  unfold containsLimitGo
  rw [h]
  simp

theorem containsLimitGo_append (x : Str) (y : Str)
    (h : ∀ q, containsLimitGo q y = true) :
    ∀ p, containsLimitGo p (x ++ y) = true := by
  induction x with
  | nil => intro p; simpa using h p
  | cons c cs ih =>
    intro p
    exact containsLimitGo_step p c (cs ++ y) (ih (some c))

theorem containsLimit_of_appended_limit (x : Str) (d : Char) (ds : Str)
    (hd : d.isDigit = true) (hsp : pySpaceChar d = false) :
    containsLimitGo none (x ++ " LIMIT ".toList ++ (d :: ds) ++ [';']) = true := by
  have hsp1 : pySpaceChar ' ' = true := by decide
  have hlim : limitAt ('L' :: 'I' :: 'M' :: 'I' :: 'T' :: ' '
      :: ((d :: ds) ++ [';'])) = true := by
    unfold limitAt
    simp [ciPref, ciEqChar, List.takeWhile_cons, hsp1, hsp, hd]
  have hstep : containsLimitGo (some ' ') ('L' :: 'I' :: 'M' :: 'I' :: 'T'
      :: ' ' :: ((d :: ds) ++ [';'])) = true := by
    unfold containsLimitGo
    rw [hlim]
    simp [boundaryOk, isWordChar]
  have hy : ∀ q, containsLimitGo q (' ' :: 'L' :: 'I' :: 'M' :: 'I' :: 'T'
      :: ' ' :: ((d :: ds) ++ [';'])) = true := fun q =>
    containsLimitGo_step q ' ' _ hstep
  have hfin := containsLimitGo_append x _ hy none
  have hshape : x ++ (' ' :: 'L' :: 'I' :: 'M' :: 'I' :: 'T' :: ' '
      :: ((d :: ds) ++ [';']))
      = x ++ " LIMIT ".toList ++ (d :: ds) ++ [';'] := by
    simp
  rw [hshape] at hfin
  exact hfin

/-- Claim C5 counterexample: for the negative default limit `-1` (Python
`int`s may be negative, and the `/ask` endpoint forwards `payload.limit`),
`ensure_limit` appends ` LIMIT -1;` again on the second application, because
`\blimit\s+\d+` does not match `LIMIT -1`. -/
theorem ensure_limit_not_idempotent_for_negative :
    ensure_limit (ensure_limit "SELECT 1".toList (-1)) (-1)
      ≠ ensure_limit "SELECT 1".toList (-1) := by
  decide

/-- Claim C5 (amended): `ensure_limit` is idempotent for every SQL string
and every nonnegative default limit: the appended ` LIMIT <n>;` text is
matched by the `\blimit\s+\d+` search of the second application. -/
theorem ensure_limit_idempotent (s : Str) (n : Int) (h : 0 ≤ n) :
    ensure_limit (ensure_limit s n) n = ensure_limit s n := by
  by_cases h1 : containsLimitGo none s = true
  · unfold ensure_limit
    simp [h1]
  · have hrepr : intRepr n = natDigits n.toNat := by
      unfold intRepr
      rw [if_neg (by omega)]
    obtain ⟨d, ds, hds⟩ := List.exists_cons_of_ne_nil (natDigits_ne_nil n.toNat)
    have hd := natDigitsAux_digits (n.toNat + 1) n.toNat d
      (by rw [← natDigits]; rw [hds]; simp)
    have hfirst : ensure_limit s n
        = pyRstripSemi s ++ " LIMIT ".toList ++ (d :: ds) ++ [';'] := by
      unfold ensure_limit
      rw [if_neg h1, hrepr, hds]
    rw [hfirst]
    unfold ensure_limit
    rw [if_pos (containsLimit_of_appended_limit _ _ _ hd.1 hd.2)]

/-- Claim C5 witness. -/
theorem ensure_limit_idempotent_witness :
    (0:Int) ≤ 5000 ∧ ensure_limit (ensure_limit "SELECT 1".toList 5000) 5000
      = ensure_limit "SELECT 1".toList 5000 :=
  ⟨by decide, ensure_limit_idempotent "SELECT 1".toList 5000 (by decide)⟩

/-- Claim C4: `whitelist_ok` is monotonic in the allowed-table list — the
tables referenced by the statement do not depend on the list, so enlarging
the list can only turn rejection into acceptance. -/
theorem whitelist_ok_monotone (sql : Str) (A B : List Str)
    (hsub : ∀ x, x ∈ A → x ∈ B) (h : whitelist_ok sql A = true) :
    whitelist_ok sql B = true := by
  unfold whitelist_ok at *
  rw [List.all_eq_true] at *
  intro t ht
  have hA : t ∈ A := by
    have := h t ht
    simpa [List.contains] using this
  simpa [List.contains] using hsub t hA

/-- Claim C4 witness. -/
theorem whitelist_ok_monotone_witness :
    (∀ x, x ∈ ["T".toList] → x ∈ ["T".toList, "U".toList])
      ∧ whitelist_ok "SELECT a FROM T".toList ["T".toList] = true
      ∧ whitelist_ok "SELECT a FROM T".toList ["T".toList, "U".toList] = true :=
  ⟨by decide, by decide,
    whitelist_ok_monotone "SELECT a FROM T".toList ["T".toList]
      ["T".toList, "U".toList] (by decide) (by decide)⟩

/-- Claim C3: `whitelist_ok` accepts — for every allowed-table list, the
empty one included — any statement in which no identifier follows a FROM or
JOIN keyword after the recursive removal of parenthesized content: the list
of checked table references is empty, so the `all` test is vacuous.  In
particular `SELECT 1` is accepted with an empty whitelist, and a statement
whose only FROM lies inside parentheses is accepted with no table checked. -/
theorem whitelist_ok_vacuous :
    (∀ sql allowed, foundTables sql = [] → whitelist_ok sql allowed = true)
      ∧ whitelist_ok "SELECT 1".toList [] = true
      ∧ foundTables "SELECT (SELECT a FROM SECRET_T)".toList = []
      ∧ whitelist_ok "SELECT (SELECT a FROM SECRET_T)".toList [] = true := by
  refine ⟨?_, by decide, by decide, by decide⟩
  intro sql allowed h
  unfold whitelist_ok
  rw [h]
  rfl

/-- Claim C3 witness. -/
theorem whitelist_ok_vacuous_witness :
    foundTables "SELECT 99".toList = []
      ∧ whitelist_ok "SELECT 99".toList [] = true :=
  ⟨by decide, whitelist_ok_vacuous.1 "SELECT 99".toList [] (by decide)⟩

/-- Claim C2 counterexample: the tolerant read-only check does not remove
parenthesized substrings — a banned keyword occurring only inside
parentheses is still found by its keyword scan, so the statement is
rejected. -/
theorem is_select_only_tol_rejects_parenthesized_keyword :
    is_select_only_tol "SELECT a, (UPDATE) FROM t".toList = false := by
  decide

/-- Claim C2 (amended): the tolerant variant differs from the strict check
only by trimming leading whitespace and leading `(` characters before the
SELECT-prefix test; its banned-keyword scan covers the whole trimmed text,
parentheses included.  And the end-to-end `/ask` path invokes the strict
`is_select_only` (imported from guard.py), not the tolerant variant: a
statement opening with `(` is accepted by the tolerant variant but rejected
by the endpoint's read-only gate. -/
theorem tolerant_variant_behavior :
    is_select_only_tol "SELECT x FROM (DELETE)".toList = false
      ∧ is_select_only_tol "(SELECT 1 FROM T".toList = true
      ∧ is_select_only "(SELECT 1 FROM T".toList = false
      ∧ ask_guard "(SELECT 1 FROM T".toList ["T".toList] 5000
          = AskVerdict.rejectedReadOnly := by
  refine ⟨by decide, by decide, by decide, ?_⟩
  decide

/-- Claim C6 counterexample: on input text containing no SELECT at all,
`clean_sql_output` returns the fence-stripped trimmed text, which is not
the empty string. -/
theorem clean_sql_output_no_select_not_empty :
    clean_sql_output "hello".toList = "hello".toList
      ∧ "hello".toList ≠ ([] : Str) := by
  refine ⟨by decide, by decide⟩

/-- Claim C6 (amended): when the fence-stripped text contains no
case-insensitive occurrence of SELECT, both regex searches fail and
`clean_sql_output` returns that fence-stripped text, whitespace-trimmed —
the empty string only when that text is itself empty. -/
theorem clean_sql_output_no_select (raw : Str)
    (h : findSel (removeFences (pyStrip raw)) = none) :
    clean_sql_output raw = pyStrip (removeFences (pyStrip raw)) := by
  by_cases hr : raw.isEmpty
  · have hnil : raw = [] := by simpa using hr
    subst hnil
    decide
  · unfold clean_sql_output
    rw [if_neg hr]
    simp only [h]

/-- Claim C6 witness. -/
theorem clean_sql_output_no_select_witness :
    findSel (removeFences (pyStrip "no sql here".toList)) = none
      ∧ clean_sql_output "no sql here".toList
          = pyStrip (removeFences (pyStrip "no sql here".toList)) :=
  ⟨by decide, clean_sql_output_no_select "no sql here".toList (by decide)⟩

/-- Claim C1: end-to-end scenario 1.  The raw model text is extracted (the
fallback branch: no semicolon), handles are resolved to `ORDO_PROJECT`, the
result passes the read-only and whitelist gates used by the `/ask`
endpoint, and limit normalization appends ` LIMIT 5000;`. -/
theorem end_to_end_scenario1 :
    clean_sql_output "```sql\nSELECT COUNT(*) FROM T1 WHERE T1.STATUS='OPEN'\n```".toList
        = "SELECT COUNT(*) FROM T1 WHERE T1.STATUS='OPEN'".toList
      ∧ replace_handles_with_tables
          "SELECT COUNT(*) FROM T1 WHERE T1.STATUS='OPEN'".toList
          ["ORDO_PROJECT".toList]
        = "SELECT COUNT(*) FROM ORDO_PROJECT WHERE ORDO_PROJECT.STATUS='OPEN'".toList
      ∧ is_select_only
          "SELECT COUNT(*) FROM ORDO_PROJECT WHERE ORDO_PROJECT.STATUS='OPEN'".toList
        = true
      ∧ whitelist_ok
          "SELECT COUNT(*) FROM ORDO_PROJECT WHERE ORDO_PROJECT.STATUS='OPEN'".toList
          ["ORDO_PROJECT".toList]
        = true
      ∧ ensure_limit
          "SELECT COUNT(*) FROM ORDO_PROJECT WHERE ORDO_PROJECT.STATUS='OPEN'".toList
          5000
        = "SELECT COUNT(*) FROM ORDO_PROJECT WHERE ORDO_PROJECT.STATUS='OPEN' LIMIT 5000;".toList := by
  refine ⟨by decide, by decide, by decide, by decide, by decide⟩

theorem segsOk_imp (pat : Str) (hpat : ∀ l, NoHandles l → ¬ pat <:+: l) :
    ∀ (ps : List (Fin 2 × Str)) (c0 : Str), SegsOk c0 ps → SegsOkP pat c0 ps := by
  intro ps
  induction ps with
  | nil => intro c0 h; exact hpat c0 h
  | cons p rest ih =>
    obtain ⟨j, c⟩ := p
    intro c0 h
    obtain ⟨h1, h2, h3, h4, h5⟩ := h
    exact ⟨hpat c0 h1, h2, h3, h4, ih c h5⟩

theorem lastOr_cons (p : Option Char) (c : Char) (x : Str) :
    lastOr p (c :: x) = lastOr (some c) x := by
  cases x with
  | nil => simp [lastOr]
  | cons d x' =>
    unfold lastOr
    rw [List.getLast?_cons_cons]
    cases hgl : (d :: x').getLast? with
    | none => simp [List.getLast?_eq_none_iff] at hgl
    | some e => rfl

theorem subWordGo_skipSegment (pat rep : Str) :
    ∀ (x : Str) (prev : Option Char) (rest : Str),
      subWordGo pat rep x.length prev (x ++ rest)
        = subWordGo pat rep 0 (lastOr prev x) rest := by
  intro x
  induction x with
  | nil => intro prev rest; simp [lastOr]
  | cons c x' ih =>
    intro prev rest
    show subWordGo pat rep (x'.length + 1) prev (c :: (x' ++ rest)) = _
    rw [show subWordGo pat rep (x'.length + 1) prev (c :: (x' ++ rest))
        = subWordGo pat rep x'.length (some c) (x' ++ rest) from rfl]
    rw [ih (some c) rest, lastOr_cons]

theorem pair_infix_cons {a b c : Char} {rest : Str}
    (h : [a, b] <:+: (c :: rest)) :
    (c = a ∧ rest.head? = some b) ∨ [a, b] <:+: rest := by
  obtain ⟨s, t, hst⟩ := h
  cases s with
  | nil =>
    simp at hst
    obtain ⟨h1, h2⟩ := hst
    left
    constructor
    · exact h1.symm
    · rw [← h2]; rfl
  | cons x s' =>
    right
    refine ⟨s', t, ?_⟩
    simpa using congrArg List.tail hst

theorem pair_infix_append {a b : Char} :
    ∀ (xs ys : Str), [a, b] <:+: (xs ++ ys) →
      [a, b] <:+: xs ∨ [a, b] <:+: ys
        ∨ (xs.getLast? = some a ∧ ys.head? = some b) := by
  intro xs
  induction xs with
  | nil => intro ys h; right; left; simpa using h
  | cons c xs' ih =>
    intro ys h
    rcases pair_infix_cons (by simpa using h) with ⟨hc, hhd⟩ | htail
    · subst hc
      cases hx : xs' with
      | nil =>
        right; right
        subst hx
        constructor
        · simp
        · simpa using hhd
      | cons d xs'' =>
        left
        subst hx
        have hd : d = b := by
          simpa using hhd
        subst hd
        exact ⟨[], xs'', rfl⟩
    · rcases ih ys htail with h1 | h2 | ⟨h3, h4⟩
      · left; exact List.infix_cons h1
      · right; left; exact h2
      · right; right
        refine ⟨?_, h4⟩
        cases xs' with
        | nil => simp at h3
        | cons d xs'' => rw [List.getLast?_cons_cons]; exact h3

theorem subWordGo_cons_zero (pat rep : Str) (prev : Option Char) (c : Char)
    (cs : Str) :
    subWordGo pat rep 0 prev (c :: cs)
      = if boundaryOk prev && List.isPrefixOf pat (c :: cs)
            && wordTailOk (List.drop pat.length (c :: cs)) then
          rep ++ subWordGo pat rep (pat.length - 1) (some c) cs
        else c :: subWordGo pat rep 0 (some c) cs := rfl

theorem subWordGo_pass (p0 p1 : Char) (rep : Str)
    (hp0 : isWordChar p0 = true) (hp1 : isWordChar p1 = true) :
    ∀ (seg : Str) (prev : Option Char) (rest : Str),
      ¬ [p0, p1] <:+: seg →
      (lastNonWordB seg = true ∨ headNonWordB rest = true) →
      subWordGo [p0, p1] rep 0 prev (seg ++ rest)
        = seg ++ subWordGo [p0, p1] rep 0 (lastOr prev seg) rest := by
  intro seg
  induction seg with
  | nil => intro prev rest _ _; simp [lastOr]
  | cons c seg' ih =>
    intro prev rest hni hend
    have hpre : List.isPrefixOf [p0, p1] (c :: (seg' ++ rest)) = false := by
      by_contra hch
      have hpref : ([p0, p1] : Str) <+: ((c :: seg') ++ rest) :=
        List.isPrefixOf_iff_prefix.mp (by simpa using hch)
      obtain ⟨t, ht⟩ := hpref
      cases seg' with
      | nil =>
        simp only [List.cons_append, List.nil_append] at ht
        obtain ⟨hc, hrest⟩ := List.cons.inj ht
        rcases hend with hend | hend
        · rw [← hc] at hend
          unfold lastNonWordB at hend
          simp [hp0] at hend
        · rw [← hrest] at hend
          unfold headNonWordB at hend
          simp [hp1] at hend
      | cons d seg'' =>
        simp only [List.cons_append] at ht
        obtain ⟨hc, ht2⟩ := List.cons.inj ht
        obtain ⟨hd, _⟩ := List.cons.inj ht2
        exact hni ⟨[], seg'', by simp [hc, hd]⟩
    rw [show (c :: seg') ++ rest = c :: (seg' ++ rest) from rfl,
      subWordGo_cons_zero]
    rw [hpre]
    simp only [Bool.and_false, Bool.false_and, if_false]
    have hni' : ¬ [p0, p1] <:+: seg' := fun h => hni (List.infix_cons h)
    have hend' : lastNonWordB seg' = true ∨ headNonWordB rest = true := by
      cases seg' with
      | nil => left; rfl
      | cons d seg'' =>
        rcases hend with hend | hend
        · left
          unfold lastNonWordB at hend ⊢
          rwa [List.getLast?_cons_cons] at hend
        · right; exact hend
    rw [ih (some c) rest hni' hend', lastOr_cons]
    rfl

theorem subWordGo_hit (p0 p1 : Char) (rep : Str) (_hp1 : isWordChar p1 = true)
    (prev : Option Char) (rest : Str)
    (hb : boundaryOk prev = true) (hr : headNonWordB rest = true) :
    subWordGo [p0, p1] rep 0 prev (p0 :: p1 :: rest)
      = rep ++ subWordGo [p0, p1] rep 0 (some p1) rest := by
  rw [subWordGo_cons_zero]
  have hpre : List.isPrefixOf [p0, p1] (p0 :: p1 :: rest) = true := by
    simp [List.isPrefixOf]
  have htail : wordTailOk (List.drop ([p0, p1] : Str).length (p0 :: p1 :: rest))
      = true := by
    cases rest with
    | nil => rfl
    | cons e rest' => simpa [wordTailOk, headNonWordB] using hr
  rw [hb, hpre, htail]
  rfl

theorem boundary_lastOr (prev : Option Char) (c0 : Str)
    (h2 : lastNonWordB c0 = true) (hb : c0 = [] → boundaryOk prev = true) :
    boundaryOk (lastOr prev c0) = true := by
  cases hgl : c0.getLast? with
  | none =>
    have hc0 : c0 = [] := by simpa [List.getLast?_eq_none_iff] using hgl
    subst hc0
    simpa [lastOr] using hb rfl
  | some d =>
    unfold lastOr
    rw [hgl]
    unfold lastNonWordB at h2
    rw [hgl] at h2
    simpa [boundaryOk] using h2

theorem joinSegs_cons (f : Fin 2 → Str) (j : Fin 2) (c : Str)
    (ps : List (Fin 2 × Str)) :
    joinSegs f ((j, c) :: ps) = f j ++ (c ++ joinSegs f ps) := by
  simp [joinSegs]

theorem headNonWord_chunkJoin (f : Fin 2 → Str) (c : Str)
    (ps : List (Fin 2 × Str))
    (h3 : c ≠ [] → headNonWordB c = true) (h4 : ps ≠ [] → c ≠ []) :
    headNonWordB (c ++ joinSegs f ps) = true := by
  cases c with
  | nil =>
    have hps : ps = [] := by
      by_contra hne
      exact (h4 hne) rfl
    subst hps
    rfl
  | cons e c' =>
    have := h3 (by simp)
    simpa [headNonWordB] using this

theorem subWordGo_render (p0 p1 : Char) (rep : Str)
    (hp0 : isWordChar p0 = true) (hp1 : isWordChar p1 = true)
    (f g : Fin 2 → Str)
    (hfg : ∀ j, (f j = [p0, p1] ∧ g j = rep) ∨
      (f j = g j ∧ ¬ [p0, p1] <:+: f j)) :
    ∀ (ps : List (Fin 2 × Str)) (c0 : Str) (prev : Option Char),
      SegsOkP [p0, p1] c0 ps →
      (ps ≠ [] → c0 = [] → boundaryOk prev = true) →
      subWordGo [p0, p1] rep 0 prev (c0 ++ joinSegs f ps)
        = c0 ++ joinSegs g ps := by
  intro ps
  induction ps with
  | nil =>
    intro c0 prev hok _
    have := subWordGo_pass p0 p1 rep hp0 hp1 c0 prev [] hok (Or.inr rfl)
    simpa [joinSegs, subWordGo] using this
  | cons p ps' ih =>
    obtain ⟨j, c⟩ := p
    intro c0 prev hok hbnd
    obtain ⟨h1, h2, h3, h4, h5⟩ := hok
    have hb2 : boundaryOk (lastOr prev c0) = true :=
      boundary_lastOr prev c0 h2 (fun hc0 => hbnd (by simp) hc0)
    have hhd : headNonWordB (c ++ joinSegs f ps') = true :=
      headNonWord_chunkJoin f c ps' h3 h4
    have hbnd' : ps' ≠ [] → c = [] → boundaryOk (some p1) = true :=
      fun hne hce => absurd hce (h4 hne)
    rw [joinSegs_cons f j c ps', joinSegs_cons g j c ps']
    rw [subWordGo_pass p0 p1 rep hp0 hp1 c0 prev _ h1 (Or.inl h2)]
    congr 1
    rcases hfg j with ⟨hfj, hgj⟩ | ⟨hfg', hni⟩
    · rw [hfj]
      rw [show ([p0, p1] : Str) ++ (c ++ joinSegs f ps')
          = p0 :: p1 :: (c ++ joinSegs f ps') from rfl]
      rw [subWordGo_hit p0 p1 rep hp1 _ _ hb2 hhd]
      rw [ih c (some p1) h5 hbnd']
      rw [hgj]
    · rw [← hfg']
      rw [subWordGo_pass p0 p1 rep hp0 hp1 (f j) _ _ hni (Or.inr hhd)]
      congr 1
      exact ih c _ h5 (fun hne hce => absurd hce (h4 hne))

theorem plainReplaceGo_cons_zero (pat rep : Str) (c : Char) (cs : Str) :
    plainReplaceGo pat rep 0 (c :: cs)
      = if !pat.isEmpty && List.isPrefixOf pat (c :: cs) then
          rep ++ plainReplaceGo pat rep (pat.length - 1) cs
        else c :: plainReplaceGo pat rep 0 cs := rfl

theorem plainReplaceGo_of_no_infix (pat rep : Str) :
    ∀ s : Str, ¬ pat <:+: s → plainReplaceGo pat rep 0 s = s := by
  intro s
  induction s with
  | nil => intro _; rfl
  | cons c cs ih =>
    intro h
    have hcond : (!pat.isEmpty && List.isPrefixOf pat (c :: cs)) = false := by
      cases hp : pat with
      | nil => simp
      | cons q qs =>
        rw [← hp]
        simp only [Bool.and_eq_false_iff]
        right
        by_contra hch
        have hpref : pat <+: (c :: cs) :=
          List.isPrefixOf_iff_prefix.mp (by simpa using hch)
        exact h hpref.isInfix
    rw [plainReplaceGo_cons_zero, hcond]
    simp only [if_false, Bool.false_eq_true]
    rw [ih (fun hi => h (List.infix_cons hi))]

theorem noPat_joinSegs (p0 p1 : Char) (hp0 : isWordChar p0 = true)
    (hp1 : isWordChar p1 = true) (g : Fin 2 → Str)
    (hg : ∀ j, ¬ [p0, p1] <:+: g j) :
    ∀ (ps : List (Fin 2 × Str)) (c0 : Str),
      SegsOkP [p0, p1] c0 ps → ¬ [p0, p1] <:+: (c0 ++ joinSegs g ps) := by
  intro ps
  induction ps with
  | nil =>
    intro c0 hok h
    simp only [joinSegs, List.map_nil, List.flatten_nil, List.append_nil] at h
    exact hok h
  | cons p ps' ih =>
    obtain ⟨j, c⟩ := p
    intro c0 hok h
    obtain ⟨h1, h2, h3, h4, h5⟩ := hok
    rw [joinSegs_cons] at h
    rcases pair_infix_append c0 _ h with hA | hB | ⟨hL, hH⟩
    · exact h1 hA
    · rcases pair_infix_append (g j) _ hB with hB1 | hB2 | ⟨hL2, hH2⟩
      · exact hg j hB1
      · exact ih c h5 hB2
      · have hhd := headNonWord_chunkJoin g c ps' h3 h4
        unfold headNonWordB at hhd
        rw [hH2] at hhd
        simp [hp1] at hhd
    · unfold lastNonWordB at h2
      rw [hL] at h2
      simp [hp0] at h2

/-- Lifting: an occurrence of the quoted handle contains an occurrence of
the bare handle. -/
theorem no_quoted_of_no_pair (p0 p1 : Char) (s : Str)
    (h : ¬ [p0, p1] <:+: s) : ¬ ('"' :: ([p0, p1] ++ ['"'])) <:+: s := by
  intro hq
  exact h (List.IsInfix.trans ⟨['"'], ['"'], rfl⟩ hq)

/-- Claim C7 counterexample: the round-trip fails on a statement that
already contains the literal handle token `T1`: substituting `AA→T1` in
`SELECT T1 FROM AA` gives `SELECT T1 FROM T1`, and resolving handles maps
both occurrences to `AA`, yielding `SELECT AA FROM AA` ≠ the original. -/
theorem round_trip_counterexample :
    replace_handles_with_tables
        (specForwardSubst "SELECT T1 FROM AA".toList
          ["AA".toList, "BB".toList])
        ["AA".toList, "BB".toList]
      ≠ "SELECT T1 FROM AA".toList := by
  decide

/-- Claim C7 (amended): handle resolution recovers the original statement
from the handle-substituted text, for every statement that decomposes into
handle-free chunks with the two handles sitting at word boundaries (chunks
before a handle end, and chunks after a handle begin, with a non-word
character), and for table names that are nonempty word-character
identifiers containing no handle token. -/
theorem round_trip_resolves_handles (A B c0 : Str) (ps : List (Fin 2 × Str))
    (hA : TableOk A) (hB : TableOk B) (hok : SegsOk c0 ps) :
    replace_handles_with_tables (renderSegs itemHandles c0 ps) [A, B]
      = renderSegs (itemTables A B) c0 ps := by
  have hwT : isWordChar 'T' = true := by decide
  have hw1 : isWordChar '1' = true := by decide
  have hw2 : isWordChar '2' = true := by decide
  have hokT1 : SegsOkP ['T', '1'] c0 ps :=
    segsOk_imp _ (fun l hl => hl.1) ps c0 hok
  have hokT2 : SegsOkP ['T', '2'] c0 ps :=
    segsOk_imp _ (fun l hl => hl.2) ps c0 hok
  have hrw : replace_handles_with_tables (renderSegs itemHandles c0 ps) [A, B]
      = plainReplaceGo ('"' :: (['T', '2'] ++ ['"'])) (quotedStr B) 0
          (subWordGo ['T', '2'] B 0 none
            (plainReplaceGo ('"' :: (['T', '1'] ++ ['"'])) (quotedStr A) 0
              (subWordGo ['T', '1'] A 0 none
                (renderSegs itemHandles c0 ps)))) := rfl
  have hfg1 : ∀ j, (itemHandles j = ['T', '1'] ∧ itemMixed A j = A) ∨
      (itemHandles j = itemMixed A j ∧ ¬ ['T', '1'] <:+: itemHandles j) := by
    intro j
    fin_cases j
    · left; exact ⟨rfl, rfl⟩
    · right; exact ⟨rfl, by decide⟩
  have hstep1 : subWordGo ['T', '1'] A 0 none (renderSegs itemHandles c0 ps)
      = c0 ++ joinSegs (itemMixed A) ps :=
    subWordGo_render 'T' '1' A hwT hw1 _ _ hfg1 ps c0 none hokT1
      (fun _ _ => rfl)
  have hg1 : ∀ j, ¬ ['T', '1'] <:+: itemMixed A j := by
    intro j
    fin_cases j
    · exact hA.2.2.1
    · show ¬ ['T', '1'] <:+: (['T', '2'] : Str)
      decide
  have hno1 : ¬ ['T', '1'] <:+: (c0 ++ joinSegs (itemMixed A) ps) :=
    noPat_joinSegs 'T' '1' hwT hw1 _ hg1 ps c0 hokT1
  have hstep2 : plainReplaceGo ('"' :: (['T', '1'] ++ ['"'])) (quotedStr A) 0
      (c0 ++ joinSegs (itemMixed A) ps) = c0 ++ joinSegs (itemMixed A) ps :=
    plainReplaceGo_of_no_infix _ _ _ (no_quoted_of_no_pair 'T' '1' _ hno1)
  have hfg2 : ∀ j, (itemMixed A j = ['T', '2'] ∧ itemTables A B j = B) ∨
      (itemMixed A j = itemTables A B j ∧ ¬ ['T', '2'] <:+: itemMixed A j) := by
    intro j
    fin_cases j
    · right; exact ⟨rfl, hA.2.2.2⟩
    · left; exact ⟨rfl, rfl⟩
  have hstep3 : subWordGo ['T', '2'] B 0 none (c0 ++ joinSegs (itemMixed A) ps)
      = c0 ++ joinSegs (itemTables A B) ps :=
    subWordGo_render 'T' '2' B hwT hw2 _ _ hfg2 ps c0 none hokT2
      (fun _ _ => rfl)
  have hg2 : ∀ j, ¬ ['T', '2'] <:+: itemTables A B j := by
    intro j
    fin_cases j
    · exact hA.2.2.2
    · exact hB.2.2.2
  have hno2 : ¬ ['T', '2'] <:+: (c0 ++ joinSegs (itemTables A B) ps) :=
    noPat_joinSegs 'T' '2' hwT hw2 _ hg2 ps c0 hokT2
  have hstep4 : plainReplaceGo ('"' :: (['T', '2'] ++ ['"'])) (quotedStr B) 0
      (c0 ++ joinSegs (itemTables A B) ps)
      = c0 ++ joinSegs (itemTables A B) ps :=
    plainReplaceGo_of_no_infix _ _ _ (no_quoted_of_no_pair 'T' '2' _ hno2)
  rw [hrw, hstep1, hstep2, hstep3, hstep4]
  rfl

/-- Claim C7 witness: `SELECT x FROM T1` with tables `[AA, BB]` resolves
back to `SELECT x FROM AA`. -/
theorem round_trip_resolves_handles_witness :
    TableOk "AA".toList ∧ TableOk "BB".toList
      ∧ SegsOk "SELECT x FROM ".toList [((0 : Fin 2), [])]
      ∧ replace_handles_with_tables
          (renderSegs itemHandles "SELECT x FROM ".toList [((0 : Fin 2), [])])
          ["AA".toList, "BB".toList]
        = renderSegs (itemTables "AA".toList "BB".toList)
            "SELECT x FROM ".toList [((0 : Fin 2), [])] := by
  have hA : TableOk "AA".toList := ⟨by decide, by decide, by decide, by decide⟩
  have hB : TableOk "BB".toList := ⟨by decide, by decide, by decide, by decide⟩
  have hok : SegsOk "SELECT x FROM ".toList [((0 : Fin 2), [])] :=
    ⟨⟨by decide, by decide⟩, by decide, fun h => absurd rfl h,
      fun h => absurd rfl h, by decide, by decide⟩
  exact ⟨hA, hB, hok,
    round_trip_resolves_handles "AA".toList "BB".toList
      "SELECT x FROM ".toList [((0 : Fin 2), [])] hA hB hok⟩

theorem strLt_asymm : ∀ x y : Str, strLt x y = true → strLt y x = false := by
  intro x
  induction x with
  | nil =>
    intro y h
    cases y with
    | nil => cases h
    | cons b bs => rfl
  | cons a as ih =>
    intro y h
    cases y with
    | nil => cases h
    | cons b bs =>
      rcases lt_trichotomy a b with hlt | heq | hgt
      · unfold strLt
        rw [if_neg (lt_asymm hlt), if_pos hlt]
      · subst heq
        unfold strLt at h ⊢
        rw [if_neg (lt_irrefl a), if_neg (lt_irrefl a)] at h ⊢
        exact ih bs h
      · unfold strLt at h
        rw [if_neg (lt_asymm hgt), if_pos hgt] at h
        cases h

theorem strLt_false_head {a b : Char} {as bs : Str}
    (h : strLt (a :: as) (b :: bs) = false) : b ≤ a := by
  by_contra hx
  push_neg at hx
  unfold strLt at h
  rw [if_pos hx] at h
  cases h

theorem strLt_false_trans :
    ∀ x y z : Str, strLt x y = false → strLt y z = false → strLt x z = false := by
  intro x
  induction x with
  | nil =>
    intro y z h1 h2
    cases z with
    | nil => rfl
    | cons c cs =>
      cases y with
      | nil => cases h2
      | cons b bs => cases h1
  | cons a as ih =>
    intro y z h1 h2
    cases z with
    | nil => rfl
    | cons c cs =>
      cases y with
      | nil => cases h2
      | cons b bs =>
        rcases lt_trichotomy a c with hac | heq | hca
        · exact absurd hac
            (not_lt.mpr (le_trans (strLt_false_head h2) (strLt_false_head h1)))
        · subst heq
          unfold strLt
          rw [if_neg (lt_irrefl a), if_neg (lt_irrefl a)]
          rcases lt_trichotomy a b with hab | hab | hab
          · exfalso
            unfold strLt at h1
            rw [if_pos hab] at h1
            cases h1
          · subst hab
            unfold strLt at h1 h2
            rw [if_neg (lt_irrefl a), if_neg (lt_irrefl a)] at h1 h2
            exact ih bs cs h1 h2
          · exfalso
            unfold strLt at h2
            rw [if_pos hab] at h2
            cases h2
        · unfold strLt
          rw [if_neg (lt_asymm hca), if_pos hca]

theorem pickGeB_iff (a b : Nat × Str) :
    pickGeB a b = true ↔ b.1 < a.1 ∨ (a.1 = b.1 ∧ strLt a.2 b.2 = false) := by
  simp [pickGeB, Bool.or_eq_true, Bool.and_eq_true, decide_eq_true_eq,
    Bool.not_eq_true']

theorem pickGe_total (a b : Nat × Str) :
    pickGeB a b = true ∨ pickGeB b a = true := by
  rcases lt_trichotomy a.1 b.1 with h | h | h
  · right; rw [pickGeB_iff]; left; exact h
  · by_cases hs : strLt a.2 b.2 = true
    · right; rw [pickGeB_iff]; right; exact ⟨h.symm, strLt_asymm _ _ hs⟩
    · left; rw [pickGeB_iff]; right
      exact ⟨h, by simpa using hs⟩
  · left; rw [pickGeB_iff]; left; exact h

theorem pickGe_trans (a b c : Nat × Str) (h1 : pickGeB a b = true)
    (h2 : pickGeB b c = true) : pickGeB a c = true := by
  rw [pickGeB_iff] at h1 h2 ⊢
  rcases h1 with h1 | ⟨h1e, h1s⟩
  · rcases h2 with h2 | ⟨h2e, _⟩
    · left; omega
    · left; omega
  · rcases h2 with h2 | ⟨h2e, h2s⟩
    · left; omega
    · right
      exact ⟨by omega, strLt_false_trans _ _ _ h1s h2s⟩

/-- Claim C8: table selection sorts the positively scored `(score, name)`
pairs by score descending with ties broken by table name in descending
lexical order (the descending tuple order `pickGeB`), truncates to the top
`k`, and falls back to the first 3 tables in catalog order when no table
scores above zero. -/
theorem pick_tables_sorted_and_fallback (schema : Schema) (question : Str)
    (k : Nat) (hk : 1 ≤ k) :
    (scoredTables schema question = [] →
      pick_tables_for_question schema question k
        = (schema.map (fun pr => pr.1)).take 3)
    ∧ (scoredTables schema question ≠ [] →
        List.Sorted (fun a b => pickGeB a b = true)
            (List.insertionSort (fun a b => pickGeB a b = true)
              (scoredTables schema question))
          ∧ (List.insertionSort (fun a b => pickGeB a b = true)
              (scoredTables schema question)).Perm
                (scoredTables schema question)
          ∧ pick_tables_for_question schema question k
              = ((List.insertionSort (fun a b => pickGeB a b = true)
                  (scoredTables schema question)).take k).map
                    (fun pr => pr.2)) := by
  haveI htot : IsTotal (Nat × Str) (fun a b => pickGeB a b = true) :=
    ⟨pickGe_total⟩
  haveI htr : IsTrans (Nat × Str) (fun a b => pickGeB a b = true) :=
    ⟨pickGe_trans⟩
  constructor
  · intro h
    unfold pick_tables_for_question
    rw [h]
    simp
  · intro hne
    refine ⟨List.sorted_insertionSort _ _, List.perm_insertionSort _ _, ?_⟩
    unfold pick_tables_for_question
    have hlen : (List.insertionSort (fun a b => pickGeB a b = true)
        (scoredTables schema question)).length
        = (scoredTables schema question).length :=
      (List.perm_insertionSort _ _).length_eq
    have hpos : 0 < (scoredTables schema question).length :=
      List.length_pos.mpr hne
    have hres : (((List.insertionSort (fun a b => pickGeB a b = true)
        (scoredTables schema question)).take k).map (fun pr => pr.2)) ≠ [] := by
      intro hempty
      have h2 := congrArg List.length hempty
      rw [List.length_map, List.length_take, hlen] at h2
      simp only [List.length_nil] at h2
      omega
    rw [if_neg hres]

/-- Claim C8 witness: a one-table catalog whose table scores zero falls
back to the first 3 tables in catalog order. -/
theorem pick_tables_sorted_and_fallback_witness :
    scoredTables w8schema "q".toList = []
      ∧ pick_tables_for_question w8schema "q".toList 5
        = (w8schema.map (fun pr => pr.1)).take 3 :=
  ⟨by decide,
    (pick_tables_sorted_and_fallback w8schema "q".toList 5 (by decide)).1
      (by decide)⟩

theorem phase1_complete (max_cols : Nat) :
    ∀ (l acc : List Str), (acc ++ l).Nodup → acc.length + l.length ≤ max_cols →
      phase1Pick max_cols l acc = acc ++ l := by
  intro l
  induction l with
  | nil => intro acc _ _; simp [phase1Pick]
  | cons c rest ih =>
    intro acc hnd hlen
    have hcnot : c ∉ acc := by
      rcases List.nodup_append.mp hnd with ⟨_, _, hdis⟩
      intro hc
      exact hdis hc (List.mem_cons_self c rest)
    have hcontains : acc.contains c = false := by
      by_contra hx
      simp only [Bool.not_eq_false] at hx
      exact hcnot (by simpa [List.contains] using hx)
    unfold phase1Pick
    simp only [hcontains, Bool.false_eq_true, if_false]
    by_cases hbr : max_cols ≤ (acc ++ [c]).length
    · have hrest : rest = [] := by
        have h1 : (acc ++ [c]).length = acc.length + 1 := by simp
        rw [h1] at hbr
        simp only [List.length_cons] at hlen
        have : rest.length = 0 := by omega
        exact List.length_eq_zero.mp this
      subst hrest
      rw [if_pos hbr]
    · rw [if_neg hbr]
      have hnd2 : ((acc ++ [c]) ++ rest).Nodup := by
        simpa [List.append_assoc] using hnd
      have hlen2 : (acc ++ [c]).length + rest.length ≤ max_cols := by
        simp only [List.length_append, List.length_cons, List.length_nil]
          at hlen ⊢
        omega
      rw [ih (acc ++ [c]) hnd2 hlen2]
      simp

theorem mem_mustKeepAppend (max_cols : Nat) (x : Str) :
    ∀ (mk picked : List Str), x ∈ picked →
      x ∈ mustKeepAppend max_cols mk picked := by
  intro mk
  induction mk with
  | nil => intro picked h; exact h
  | cons m mk' ih =>
    intro picked h
    unfold mustKeepAppend
    rw [List.foldl_cons]
    apply ih
    split_ifs with hc
    · exact List.mem_append_left _ h
    · exact h

/-- Claim C9 (amended): `pick_columns_for_table` retains every must-keep
column present on the table provided the table's total column count does
not exceed `max_cols` (in that case the first selection loop keeps every
column).  When the table is wider than `max_cols`, must-keep columns
ranked outside the top `max_cols` are dropped, since the force-append loop
only runs while the picked list is below the cap. -/
theorem pick_columns_retains_mustkeep (schema : Schema) (table : Str)
    (tinfo : TableInfo) (question : Str) (max_cols : Nat)
    (hlk : List.lookup table schema = some tinfo)
    (hnd : (tinfo.columns.map (fun pr => pr.1)).Nodup)
    (hlen : tinfo.columns.length ≤ max_cols) :
    pick_columns_for_table schema table question max_cols
        = some (pickColumnsCore tinfo question max_cols)
      ∧ ∀ c, c ∈ mustKeepNames → c ∈ tinfo.columns.map (fun pr => pr.1) →
          c ∈ pickColumnsCore tinfo question max_cols := by
  constructor
  · unfold pick_columns_for_table
    rw [hlk]
    rfl
  · intro c _ hcol
    unfold pickColumnsCore
    have hperm : ((List.insertionSort (fun a b => colLeB a b = true)
        (scoredColumns tinfo question)).map (fun pr => pr.2)).Perm
          (tinfo.columns.map (fun pr => pr.1)) := by
      have h1 := (List.perm_insertionSort (fun a b => colLeB a b = true)
        (scoredColumns tinfo question)).map (fun pr => pr.2)
      have h2 : (scoredColumns tinfo question).map (fun pr => pr.2)
          = tinfo.columns.map (fun pr => pr.1) := by
        simp [scoredColumns]
      rw [h2] at h1
      exact h1
    have hnd' : ((List.insertionSort (fun a b => colLeB a b = true)
        (scoredColumns tinfo question)).map (fun pr => pr.2)).Nodup :=
      hperm.nodup_iff.mpr hnd
    have hlen' : ((List.insertionSort (fun a b => colLeB a b = true)
        (scoredColumns tinfo question)).map (fun pr => pr.2)).length
        ≤ max_cols := by
      rw [hperm.length_eq, List.length_map]
      exact hlen
    have hphase : phase1Pick max_cols
        ((List.insertionSort (fun a b => colLeB a b = true)
          (scoredColumns tinfo question)).map (fun pr => pr.2)) []
        = (List.insertionSort (fun a b => colLeB a b = true)
          (scoredColumns tinfo question)).map (fun pr => pr.2) := by
      have := phase1_complete max_cols
        ((List.insertionSort (fun a b => colLeB a b = true)
          (scoredColumns tinfo question)).map (fun pr => pr.2)) []
        (by simpa using hnd') (by simpa using hlen')
      simpa using this
    show c ∈ mustKeepAppend max_cols
      (mustKeepNames.filter
        (fun c => (tinfo.columns.map (fun pr => pr.1)).contains c))
      (phase1Pick max_cols
        ((List.insertionSort (fun a b => colLeB a b = true)
          (scoredColumns tinfo question)).map (fun pr => pr.2)) [])
    rw [hphase]
    exact mem_mustKeepAppend max_cols c _ _ (hperm.mem_iff.mpr hcol)

/-- Claim C9 counterexample: with `max_cols = 1` the single present
must-keep column `ID` (1 ≤ max_cols, so the must-keep set alone does not
exceed the capacity) is dropped: the higher-scoring `X_ID` fills the
capacity in the first loop and the force-append loop cannot add `ID`. -/
theorem pick_columns_drops_mustkeep :
    pick_columns_for_table [("T".toList, w9wide)] "T".toList "total".toList 1
        = some ["X_ID".toList]
      ∧ "ID".toList ∈ mustKeepNames
      ∧ "ID".toList ∈ w9wide.columns.map (fun pr => pr.1)
      ∧ (mustKeepNames.filter
          (fun c => (w9wide.columns.map (fun pr => pr.1)).contains c)).length
          ≤ 1
      ∧ "ID".toList ∉ ["X_ID".toList] := by
  refine ⟨by decide, by decide, by decide, by decide, by decide⟩

/-- Claim C9 witness. -/
theorem pick_columns_retains_mustkeep_witness :
    List.lookup "T".toList [("T".toList, w9small)] = some w9small
      ∧ "ID".toList ∈ pickColumnsCore w9small [] 5 :=
  ⟨by decide,
    (pick_columns_retains_mustkeep [("T".toList, w9small)] "T".toList w9small
      [] 5 (by decide) (by decide) (by decide)).2 "ID".toList (by decide)
      (by decide)⟩

theorem takeWhile_run (p : Char → Bool) :
    ∀ (w x : Str), (∀ c ∈ w, p c = true) →
      (∀ d, x.head? = some d → p d = false) →
      (w ++ x).takeWhile p = w := by
  intro w
  induction w with
  | nil =>
    intro x _ hx
    cases x with
    | nil => rfl
    | cons d ds => simp [List.takeWhile_cons, hx d rfl]
  | cons c w' ih =>
    intro x hw hx
    simp only [List.cons_append, List.takeWhile_cons,
      hw c (List.mem_cons_self c w'), if_pos]
    rw [ih x (fun e he => hw e (List.mem_cons_of_mem c he)) hx]

theorem ciPref_append_self : ∀ (col x : Str), ciPref col (col ++ x) = true := by
  intro col
  induction col with
  | nil => intro x; rfl
  | cons p ps ih => intro x; simp [ciPref, ciEqChar, ih x]

theorem digit_not_space (c : Char) (h : c.isDigit = true) :
    pySpaceChar c = false := by
  have h1 : c ≠ ' ' := by rintro rfl; exact absurd h (by decide)
  have h2 : c ≠ '\t' := by rintro rfl; exact absurd h (by decide)
  have h3 : c ≠ '\n' := by rintro rfl; exact absurd h (by decide)
  have h4 : c ≠ '\r' := by rintro rfl; exact absurd h (by decide)
  have h5 : c ≠ '\x0b' := by rintro rfl; exact absurd h (by decide)
  have h6 : c ≠ '\x0c' := by rintro rfl; exact absurd h (by decide)
  simp [pySpaceChar, h1, h2, h3, h4, h5, h6]

theorem space_cases (c : Char) (h : pySpaceChar c = true) :
    c = ' ' ∨ c = '\t' ∨ c = '\n' ∨ c = '\r' ∨ c = '\x0b' ∨ c = '\x0c' := by
  have h0 := h
  simp only [pySpaceChar, Bool.or_eq_true, decide_eq_true_eq] at h0
  tauto

theorem space_not_word (c : Char) (h : pySpaceChar c = true) :
    isWordChar c = false := by
  rcases space_cases c h with rfl | rfl | rfl | rfl | rfl | rfl <;> decide

theorem space_ne_quote (c : Char) (h : pySpaceChar c = true) : c ≠ '"' := by
  rcases space_cases c h with rfl | rfl | rfl | rfl | rfl | rfl <;> decide

theorem space_ne_dot (c : Char) (h : pySpaceChar c = true) : c ≠ '.' := by
  rcases space_cases c h with rfl | rfl | rfl | rfl | rfl | rfl <;> decide

theorem word_ne_quote (c : Char) (h : isWordChar c = true) : c ≠ '"' := by
  rintro rfl; exact absurd h (by decide)

theorem quoteSplit_ne (c : Char) (u : Str) (h : c ≠ '"') :
    quoteSplit (c :: u) = none := by
  unfold quoteSplit
  split
  · rename_i u' heq
    injection heq with h1 _
    exact absurd h1 h
  · rfl

theorem isDotHead_ne (c : Char) (x : Str) (h : c ≠ '.') :
    isDotHead (c :: x) = false := by
  unfold isDotHead
  split
  · rename_i x' heq
    injection heq with h1 _
    exact absurd h1 h
  · rfl

theorem tryEq_structured (sp1 sp2 ds rest : Str) (c0 : Nat)
    (hsp1 : ∀ c ∈ sp1, pySpaceChar c = true)
    (hsp2 : ∀ c ∈ sp2, pySpaceChar c = true)
    (hds : ds ≠ []) (hdsd : ∀ c ∈ ds, c.isDigit = true)
    (hrest : ∀ d, rest.head? = some d → d.isDigit = false) :
    tryEq (sp1 ++ '=' :: (sp2 ++ (ds ++ rest))) c0
      = some (c0 + sp1.length + 1 + sp2.length, ds.length) := by
  obtain ⟨d0, ds', rfl⟩ : ∃ d0 ds', ds = d0 :: ds' := by
    cases ds with
    | nil => exact absurd rfl hds
    | cons d0 ds' => exact ⟨d0, ds', rfl⟩
  have h1 : (sp1 ++ '=' :: (sp2 ++ (d0 :: ds' ++ rest))).takeWhile pySpaceChar
      = sp1 := by
    apply takeWhile_run pySpaceChar sp1 _ hsp1
    intro d hd
    have h9 : '=' = d := by simpa using hd
    subst h9; decide
  have h2 : (sp1 ++ '=' :: (sp2 ++ (d0 :: ds' ++ rest))).drop sp1.length
      = '=' :: (sp2 ++ (d0 :: ds' ++ rest)) := List.drop_left _ _
  have h3 : (sp2 ++ (d0 :: ds' ++ rest)).takeWhile pySpaceChar = sp2 := by
    apply takeWhile_run pySpaceChar sp2 _ hsp2
    intro d hd
    have h9 : d0 = d := by simpa using hd
    subst h9
    exact digit_not_space d0 (hdsd d0 (List.mem_cons_self d0 ds'))
  have h4 : (sp2 ++ (d0 :: ds' ++ rest)).drop sp2.length
      = d0 :: ds' ++ rest := List.drop_left _ _
  have h5 : ((d0 :: ds' : Str) ++ rest).takeWhile Char.isDigit = d0 :: ds' := by
    apply takeWhile_run Char.isDigit (d0 :: ds') rest hdsd
    intro d hd
    exact hrest d hd
  simp only [tryEq, h1, h2, h3, h4, h5, List.length_cons]
  simp only [Nat.succ_ne_zero, if_neg, reduceIte]

theorem tryFromCol_structured (col A2 sp1 sp2 ds rest : Str) (c0 : Nat)
    (hA2 : A2 = [] ∨ A2 = ['"'])
    (hsp1 : ∀ c ∈ sp1, pySpaceChar c = true)
    (hsp2 : ∀ c ∈ sp2, pySpaceChar c = true)
    (hds : ds ≠ []) (hdsd : ∀ c ∈ ds, c.isDigit = true)
    (hrest : ∀ d, rest.head? = some d → d.isDigit = false) :
    tryFromCol col (col ++ (A2 ++ (sp1 ++ '=' :: (sp2 ++ (ds ++ rest))))) c0
      = some (c0 + col.length + A2.length + sp1.length + 1 + sp2.length,
          ds.length) := by
  have hdrop : (col ++ (A2 ++ (sp1 ++ '=' :: (sp2 ++ (ds ++ rest))))).drop
      col.length = A2 ++ (sp1 ++ '=' :: (sp2 ++ (ds ++ rest))) :=
    List.drop_left _ _
  unfold tryFromCol
  rw [if_pos (ciPref_append_self col _), hdrop]
  rcases hA2 with rfl | rfl
  · have hq : quoteSplit (([] : Str) ++ (sp1 ++ '=' :: (sp2 ++ (ds ++ rest))))
        = none := by
      cases sp1 with
      | nil => exact quoteSplit_ne '=' _ (by decide)
      | cons s sp1' =>
        exact quoteSplit_ne s _
          (space_ne_quote s (hsp1 s (List.mem_cons_self s sp1')))
    rw [hq]
    dsimp only
    simp only [List.nil_append]
    rw [tryEq_structured sp1 sp2 ds rest (c0 + col.length) hsp1 hsp2 hds hdsd
      hrest]
    simp only [List.length_nil, Option.some.injEq, Prod.mk.injEq]
    exact ⟨by omega, trivial⟩
  · have hq : quoteSplit ((['"'] : Str) ++ (sp1 ++ '=' :: (sp2 ++ (ds ++ rest))))
        = some (sp1 ++ '=' :: (sp2 ++ (ds ++ rest))) := rfl
    rw [hq]
    dsimp only
    rw [tryEq_structured sp1 sp2 ds rest (c0 + col.length + 1) hsp1 hsp2 hds
      hdsd hrest]
    dsimp only
    simp only [List.length_cons, List.length_nil, Option.some.injEq,
      Prod.mk.injEq]

theorem colPart_structured (col A1 A2 sp1 sp2 ds rest : Str)
    (hcol : col ≠ []) (hcolw : ∀ c ∈ col, isWordChar c = true)
    (hA1 : A1 = [] ∨ A1 = ['"']) (hA2 : A2 = [] ∨ A2 = ['"'])
    (hsp1 : ∀ c ∈ sp1, pySpaceChar c = true)
    (hsp2 : ∀ c ∈ sp2, pySpaceChar c = true)
    (hds : ds ≠ []) (hdsd : ∀ c ∈ ds, c.isDigit = true)
    (hrest : ∀ d, rest.head? = some d → d.isDigit = false) :
    colPart col (A1 ++ (col ++ (A2 ++ (sp1 ++ '=' :: (sp2 ++ (ds ++ rest))))))
      = some (A1.length + col.length + A2.length + sp1.length + 1 + sp2.length,
          ds.length) := by
  rcases hA1 with rfl | rfl
  · obtain ⟨e, col', rfl⟩ : ∃ e col', col = e :: col' := by
      cases col with
      | nil => exact absurd rfl hcol
      | cons e col' => exact ⟨e, col', rfl⟩
    have hq : quoteSplit (([] : Str) ++ (e :: col' ++ (A2 ++ (sp1 ++ '='
        :: (sp2 ++ (ds ++ rest)))))) = none := by
      simp only [List.nil_append, List.cons_append]
      exact quoteSplit_ne e _
        (word_ne_quote e (hcolw e (List.mem_cons_self e col')))
    unfold colPart
    rw [hq]
    dsimp only
    simp only [List.nil_append]
    rw [tryFromCol_structured (e :: col') A2 sp1 sp2 ds rest 0 hA2 hsp1 hsp2
      hds hdsd hrest]
    simp only [List.length_nil, Option.some.injEq, Prod.mk.injEq]
  · have hq : quoteSplit ((['"'] : Str) ++ (col ++ (A2 ++ (sp1 ++ '='
        :: (sp2 ++ (ds ++ rest)))))) = some (col ++ (A2 ++ (sp1 ++ '='
        :: (sp2 ++ (ds ++ rest))))) := rfl
    unfold colPart
    rw [hq]
    dsimp only
    rw [tryFromCol_structured col A2 sp1 sp2 ds rest 1 hA2 hsp1 hsp2 hds hdsd
      hrest]
    dsimp only
    simp only [List.length_cons, List.length_nil, Option.some.injEq,
      Prod.mk.injEq]

theorem afterCol_head (A2 sp1 : Str) (X : Str)
    (hA2 : A2 = [] ∨ A2 = ['"'])
    (hsp1 : ∀ c ∈ sp1, pySpaceChar c = true) :
    ∃ d t, A2 ++ (sp1 ++ '=' :: X) = d :: t
      ∧ isWordChar d = false ∧ d ≠ '.' := by
  rcases hA2 with rfl | rfl
  · cases sp1 with
    | nil => exact ⟨'=', X, by simp, by decide, by decide⟩
    | cons s sp1' =>
      exact ⟨s, sp1' ++ '=' :: X, by simp,
        space_not_word s (hsp1 s (List.mem_cons_self s sp1')),
        space_ne_dot s (hsp1 s (List.mem_cons_self s sp1'))⟩
  · exact ⟨'"', sp1 ++ '=' :: X, by simp, by decide, by decide⟩

theorem matchEqLit_structured (col Qs A1 A2 sp1 sp2 ds rest : Str)
    (hcol : col ≠ []) (hcolw : ∀ c ∈ col, isWordChar c = true)
    (hQ : Qs = [] ∨ ∃ w, Qs = w ++ ['.'] ∧ w ≠ []
      ∧ ∀ c ∈ w, isWordChar c = true)
    (hA1 : A1 = [] ∨ A1 = ['"']) (hA2 : A2 = [] ∨ A2 = ['"'])
    (hsp1 : ∀ c ∈ sp1, pySpaceChar c = true)
    (hsp2 : ∀ c ∈ sp2, pySpaceChar c = true)
    (hds : ds ≠ []) (hdsd : ∀ c ∈ ds, c.isDigit = true)
    (hrest : ∀ d, rest.head? = some d → d.isDigit = false) :
    matchEqLit col
        (Qs ++ (A1 ++ (col ++ (A2 ++ (sp1 ++ '=' :: (sp2 ++ (ds ++ rest)))))))
      = some (Qs.length + A1.length + col.length + A2.length + sp1.length + 1
          + sp2.length, ds.length) := by
  rcases hQ with rfl | ⟨w, rfl, hwne, hww⟩
  · rcases hA1 with rfl | rfl
    · -- no qualifier, no opening quote: the word run is the column itself,
      -- followed by a non-dot character, so the qualifier branch fails
      obtain ⟨d, t, hdt, hdw, hdd⟩ :=
        afterCol_head A2 sp1 (sp2 ++ (ds ++ rest)) hA2 hsp1
      have htw : ((col ++ (A2 ++ (sp1 ++ '=' :: (sp2 ++ (ds ++ rest)))))
          : Str).takeWhile isWordChar = col := by
        apply takeWhile_run isWordChar col _ hcolw
        intro e he
        rw [hdt] at he
        have h9 : d = e := by simpa using he
        subst h9; exact hdw
      have hdrop : ((col ++ (A2 ++ (sp1 ++ '=' :: (sp2 ++ (ds ++ rest)))))
          : Str).drop col.length = A2 ++ (sp1 ++ '=' :: (sp2 ++ (ds ++ rest)))
        := List.drop_left _ _
      have hr0 : col.length ≠ 0 := by
        cases col with
        | nil => exact absurd rfl hcol
        | cons e col' => simp
      have hdot : isDotHead (A2 ++ (sp1 ++ '=' :: (sp2 ++ (ds ++ rest))))
          = false := by
        rw [hdt]; exact isDotHead_ne d t hdd
      have hcp := colPart_structured col [] A2 sp1 sp2 ds rest hcol hcolw
        (Or.inl rfl) hA2 hsp1 hsp2 hds hdsd hrest
      simp only [List.nil_append, List.length_nil] at hcp ⊢
      simp only [matchEqLit, htw, hdrop, hdot]
      rw [if_neg hr0]
      simp only [Bool.false_eq_true, if_false]
      rw [hcp]
    · -- no qualifier, opening quote: the word run is empty
      have htw : (((['"'] : Str) ++ (col ++ (A2 ++ (sp1 ++ '='
          :: (sp2 ++ (ds ++ rest)))))) : Str).takeWhile isWordChar = [] := by
        rw [show (['"'] : Str) ++ (col ++ (A2 ++ (sp1 ++ '='
          :: (sp2 ++ (ds ++ rest))))) = '"' :: (col ++ (A2 ++ (sp1 ++ '='
          :: (sp2 ++ (ds ++ rest))))) from rfl]
        rw [List.takeWhile_cons]
        simp only [show isWordChar '"' = false from by decide,
          Bool.false_eq_true, if_false]
      have hcp := colPart_structured col ['"'] A2 sp1 sp2 ds rest hcol hcolw
        (Or.inr rfl) hA2 hsp1 hsp2 hds hdsd hrest
      simp only [List.nil_append] at hcp ⊢
      simp only [matchEqLit, htw, List.length_nil]
      simp only [if_true]
      rw [hcp]
      simp only [Option.some.injEq, Prod.mk.injEq, List.length_cons,
        List.length_nil]
  · -- qualifier w.: the word run is w, followed by the dot
    have hS : ((w ++ ['.']) : Str) ++ (A1 ++ (col ++ (A2 ++ (sp1 ++ '='
        :: (sp2 ++ (ds ++ rest)))))) = w ++ ('.' :: (A1 ++ (col ++ (A2
        ++ (sp1 ++ '=' :: (sp2 ++ (ds ++ rest))))))) := by simp
    have htw : ((w : Str) ++ ('.' :: (A1 ++ (col ++ (A2 ++ (sp1 ++ '='
        :: (sp2 ++ (ds ++ rest)))))))).takeWhile isWordChar = w := by
      apply takeWhile_run isWordChar w _ hww
      intro e he
      have h9 : '.' = e := by simpa using he
      subst h9; decide
    have hr0 : w.length ≠ 0 := by
      cases w with
      | nil => exact absurd rfl hwne
      | cons e w' => simp
    have hdrop1 : ((w : Str) ++ ('.' :: (A1 ++ (col ++ (A2 ++ (sp1 ++ '='
        :: (sp2 ++ (ds ++ rest)))))))).drop w.length = '.' :: (A1 ++ (col
        ++ (A2 ++ (sp1 ++ '=' :: (sp2 ++ (ds ++ rest)))))) :=
      List.drop_left _ _
    have hdrop2 : ((w : Str) ++ ('.' :: (A1 ++ (col ++ (A2 ++ (sp1 ++ '='
        :: (sp2 ++ (ds ++ rest)))))))).drop (w.length + 1) = A1 ++ (col
        ++ (A2 ++ (sp1 ++ '=' :: (sp2 ++ (ds ++ rest))))) := by
      rw [show (w : Str) ++ ('.' :: (A1 ++ (col ++ (A2 ++ (sp1 ++ '='
        :: (sp2 ++ (ds ++ rest))))))) = ((w ++ ['.']) : Str) ++ (A1 ++ (col
        ++ (A2 ++ (sp1 ++ '=' :: (sp2 ++ (ds ++ rest)))))) by simp]
      rw [show w.length + 1 = ((w ++ ['.']) : Str).length by simp]
      exact List.drop_left _ _
    have hcp := colPart_structured col A1 A2 sp1 sp2 ds rest hcol hcolw hA1
      hA2 hsp1 hsp2 hds hdsd hrest
    rw [hS]
    simp only [matchEqLit, htw, hdrop1, hdrop2]
    rw [if_neg hr0]
    rw [show isDotHead ('.' :: (A1 ++ (col ++ (A2 ++ (sp1 ++ '='
      :: (sp2 ++ (ds ++ rest))))))) = true from rfl]
    rw [if_pos rfl]
    rw [hcp]
    simp only [Option.map_some']
    simp only [Option.some.injEq, Prod.mk.injEq, List.length_append,
      List.length_cons, List.length_nil]
    exact ⟨by omega, trivial⟩

theorem ciPref_hasCIOcc (pat s : Str) (hp : pat ≠ [])
    (h : ciPref pat s = true) : hasCIOcc pat s = true := by
  cases s with
  | nil =>
    cases pat with
    | nil => exact absurd rfl hp
    | cons p ps => simp [ciPref] at h
  | cons c cs => simp [hasCIOcc, h]

theorem hasCIOcc_drop (pat : Str) : ∀ (s : Str) (k : Nat),
    hasCIOcc pat (s.drop k) = true → hasCIOcc pat s = true := by
  intro s
  induction s with
  | nil => intro k h; simpa using h
  | cons c cs ih =>
    intro k h
    cases k with
    | zero => simpa using h
    | succ k' =>
      have h2 := ih k' (by simpa using h)
      simp [hasCIOcc, h2]

theorem tryFromCol_some_ciPref (col t1 : Str) (c0 : Nat) (p : Nat × Nat)
    (h : tryFromCol col t1 c0 = some p) : ciPref col t1 = true := by
  unfold tryFromCol at h
  by_cases hc : ciPref col t1 = true
  · exact hc
  · rw [if_neg hc] at h
    exact absurd h (by simp)

theorem quoteSplit_some (t u : Str) (h : quoteSplit t = some u) :
    t = '"' :: u := by
  cases t with
  | nil => exact absurd h (by simp [quoteSplit])
  | cons c cs =>
    by_cases hc : c = '"'
    · subst hc
      have h2 : quoteSplit ('"' :: cs) = some cs := rfl
      rw [h2] at h
      injection h with h1
      rw [h1]
    · rw [quoteSplit_ne c cs hc] at h
      exact absurd h (by simp)

theorem colPart_some_hasCIOcc (col t : Str) (hp : col ≠ []) (p : Nat × Nat)
    (h : colPart col t = some p) : hasCIOcc col t = true := by
  unfold colPart at h
  split at h
  · rename_i r heq
    cases hq : quoteSplit t with
    | none => rw [hq] at heq; exact absurd heq (by simp)
    | some u =>
      rw [hq] at heq
      have hci := tryFromCol_some_ciPref col u 1 r heq
      have ht := quoteSplit_some t u hq
      subst ht
      have h2 := ciPref_hasCIOcc col u hp hci
      simp [hasCIOcc, h2]
  · exact ciPref_hasCIOcc col t hp (tryFromCol_some_ciPref col t 0 p h)

theorem matchEqLit_some_hasCIOcc (col s : Str) (hp : col ≠ []) (p : Nat × Nat)
    (h : matchEqLit col s = some p) : hasCIOcc col s = true := by
  simp only [matchEqLit] at h
  split at h
  · rename_i res heq
    split at heq
    · exact absurd heq (by simp)
    · split at heq
      · rw [Option.map_eq_some'] at heq
        obtain ⟨q, hq, _⟩ := heq
        exact hasCIOcc_drop col s _ (colPart_some_hasCIOcc col _ hp q hq)
      · exact absurd heq (by simp)
  · exact hasCIOcc_drop col s 0
      (colPart_some_hasCIOcc col _ hp p (by simpa using h))

theorem coerceSubGo_cons_zero (col : Str) (c : Char) (cs : Str) :
    coerceSubGo col 0 (c :: cs)
      = match matchEqLit col (c :: cs) with
        | some (n1, n2) =>
          (c :: cs).take n1
            ++ '\'' :: (((c :: cs).drop n1).take n2
              ++ '\'' :: coerceSubGo col (n1 + n2 - 1) cs)
        | none => c :: coerceSubGo col 0 cs := rfl

theorem coerceSubGo_pass (col : Str) (hp : col ≠ []) :
    ∀ s : Str, hasCIOcc col s = false → coerceSubGo col 0 s = s := by
  intro s
  induction s with
  | nil => intro _; rfl
  | cons c cs ih =>
    intro h
    have hsplit : ciPref col (c :: cs) = false ∧ hasCIOcc col cs = false := by
      simpa [hasCIOcc] using h
    have hm : matchEqLit col (c :: cs) = none := by
      cases hmm : matchEqLit col (c :: cs) with
      | none => rfl
      | some p =>
        have := matchEqLit_some_hasCIOcc col (c :: cs) hp p hmm
        rw [h] at this
        exact absurd this (by simp)
    rw [coerceSubGo_cons_zero, hm, ih hsplit.2]

theorem coerceSubGo_skip (col : Str) : ∀ (x r : Str),
    coerceSubGo col x.length (x ++ r) = coerceSubGo col 0 r := by
  intro x
  induction x with
  | nil => intro r; rfl
  | cons c x' ih =>
    intro r
    show coerceSubGo col (x'.length + 1) (c :: (x' ++ r)) = _
    rw [show coerceSubGo col (x'.length + 1) (c :: (x' ++ r))
        = coerceSubGo col x'.length (x' ++ r) from rfl]
    exact ih r

theorem coerceSubGo_hit (col x y r : Str) (hx : x ≠ [])
    (hm : matchEqLit col (x ++ (y ++ r)) = some (x.length, y.length)) :
    coerceSubGo col 0 (x ++ (y ++ r))
      = x ++ ('\'' :: (y ++ '\'' :: coerceSubGo col 0 r)) := by
  obtain ⟨a, x', rfl⟩ : ∃ a x', x = a :: x' := by
    cases x with
    | nil => exact absurd rfl hx
    | cons a x' => exact ⟨a, x', rfl⟩
  rw [List.cons_append] at hm ⊢
  rw [coerceSubGo_cons_zero, hm]
  dsimp only
  have ht1 : (a :: (x' ++ (y ++ r))).take (a :: x').length = a :: x' := by
    rw [← List.cons_append]
    exact List.take_left _ _
  have hd1 : (a :: (x' ++ (y ++ r))).drop (a :: x').length = y ++ r := by
    rw [← List.cons_append]
    exact List.drop_left _ _
  have ht2 : ((y : Str) ++ r).take y.length = y := List.take_left _ _
  have hs : coerceSubGo col ((a :: x').length + y.length - 1) (x' ++ (y ++ r))
      = coerceSubGo col 0 r := by
    rw [show x' ++ (y ++ r) = (x' ++ y) ++ r by simp]
    rw [show (a :: x').length + y.length - 1 = ((x' : Str) ++ y).length by
      simp [List.length_append, List.length_cons]]
    exact coerceSubGo_skip col (x' ++ y) r
  rw [ht1, hd1, ht2, hs]

theorem coerceSub_structured (col Qs A1 A2 sp1 sp2 ds rest : Str)
    (hcol : col ≠ []) (hcolw : ∀ c ∈ col, isWordChar c = true)
    (hQ : Qs = [] ∨ ∃ w, Qs = w ++ ['.'] ∧ w ≠ []
      ∧ ∀ c ∈ w, isWordChar c = true)
    (hA1 : A1 = [] ∨ A1 = ['"']) (hA2 : A2 = [] ∨ A2 = ['"'])
    (hsp1 : ∀ c ∈ sp1, pySpaceChar c = true)
    (hsp2 : ∀ c ∈ sp2, pySpaceChar c = true)
    (hds : ds ≠ []) (hdsd : ∀ c ∈ ds, c.isDigit = true)
    (hrest : ∀ d, rest.head? = some d → d.isDigit = false)
    (hocc : hasCIOcc col rest = false) :
    coerceSub col ((Qs ++ A1 ++ col ++ A2 ++ sp1 ++ '=' :: sp2) ++ (ds ++ rest))
      = (Qs ++ A1 ++ col ++ A2 ++ sp1 ++ '=' :: sp2)
        ++ ('\'' :: (ds ++ '\'' :: rest)) := by
  have hxne : (Qs ++ A1 ++ col ++ A2 ++ sp1 ++ '=' :: sp2 : Str) ≠ [] := by
    simp
  have hm : matchEqLit col ((Qs ++ A1 ++ col ++ A2 ++ sp1 ++ '=' :: sp2)
      ++ (ds ++ rest))
      = some ((Qs ++ A1 ++ col ++ A2 ++ sp1 ++ '=' :: sp2 : Str).length,
          ds.length) := by
    have h0 := matchEqLit_structured col Qs A1 A2 sp1 sp2 ds rest hcol hcolw
      hQ hA1 hA2 hsp1 hsp2 hds hdsd hrest
    have hlist : (Qs ++ A1 ++ col ++ A2 ++ sp1 ++ '=' :: sp2 : Str)
        ++ (ds ++ rest)
        = Qs ++ (A1 ++ (col ++ (A2 ++ (sp1 ++ '='
            :: (sp2 ++ (ds ++ rest)))))) := by
      simp [List.append_assoc]
    have hlen : (Qs ++ A1 ++ col ++ A2 ++ sp1 ++ '=' :: sp2 : Str).length
        = Qs.length + A1.length + col.length + A2.length + sp1.length + 1
          + sp2.length := by
      simp [List.length_append, List.length_cons]
      omega
    rw [hlist, hlen]
    exact h0
  have hrest0 : coerceSubGo col 0 rest = rest :=
    coerceSubGo_pass col hcol rest hocc
  unfold coerceSub
  rw [coerceSubGo_hit col _ ds rest hxne hm, hrest0]

theorem coerce_cols_nochange (sql : Str) :
    ∀ cols : List (Str × ColMeta),
      (∀ prc ∈ cols,
        (sqltype_kind prc.2.ctype = SqlKind.ktext
          ∨ sqltype_kind prc.2.ctype = SqlKind.kbool) →
        prc.1 ≠ [] ∧ hasCIOcc prc.1 sql = false) →
      cols.foldl (fun s2 prc =>
        if sqltype_kind prc.2.ctype = SqlKind.ktext
            || sqltype_kind prc.2.ctype = SqlKind.kbool
        then coerceSub prc.1 s2 else s2) sql = sql := by
  intro cols
  induction cols with
  | nil => intro _; rfl
  | cons prc rest ih =>
    intro h
    rw [List.foldl_cons]
    have hstep : (if sqltype_kind prc.2.ctype = SqlKind.ktext
        || sqltype_kind prc.2.ctype = SqlKind.kbool
      then coerceSub prc.1 sql else sql) = sql := by
      by_cases hk : sqltype_kind prc.2.ctype = SqlKind.ktext
          ∨ sqltype_kind prc.2.ctype = SqlKind.kbool
      · obtain ⟨hne, hocc⟩ := h prc (List.mem_cons_self prc rest) hk
        have hpass : coerceSub prc.1 sql = sql :=
          coerceSubGo_pass prc.1 hne sql hocc
        rcases hk with hk | hk <;> simp [hk, hpass]
      · rw [if_neg (by simpa using hk)]
    rw [hstep]
    exact ih (fun prc' hprc' => h prc' (List.mem_cons_of_mem _ hprc'))

theorem coerce_nochange (sql : Str) (schema : Schema)
    (h : ∀ pr ∈ schema, ∀ prc ∈ pr.2.columns,
      (sqltype_kind prc.2.ctype = SqlKind.ktext
        ∨ sqltype_kind prc.2.ctype = SqlKind.kbool) →
      prc.1 ≠ [] ∧ hasCIOcc prc.1 sql = false) :
    coerce_numeric_string_literals sql schema = sql := by
  unfold coerce_numeric_string_literals
  induction schema with
  | nil => rfl
  | cons pr rest ih =>
    rw [List.foldl_cons]
    rw [coerce_cols_nochange sql pr.2.columns
      (h pr (List.mem_cons_self pr rest))]
    exact ih (fun pr' hpr' => h pr' (List.mem_cons_of_mem _ hpr'))

theorem coerce_single_column (sql tbl d : Str) (al : List Str) (col : Str)
    (meta : ColMeta)
    (h : sqltype_kind meta.ctype = SqlKind.ktext
      ∨ sqltype_kind meta.ctype = SqlKind.kbool) :
    coerce_numeric_string_literals sql [(tbl, ⟨d, al, [(col, meta)]⟩)]
      = coerceSub col sql := by
  unfold coerce_numeric_string_literals
  simp only [List.foldl_cons, List.foldl_nil]
  rcases h with h | h <;> simp [h]

/-- Claim C10 counterexample: a float literal does not pass through
unchanged — the pattern's `(\d+)` matches the integer part of `1.5`, so
`FLAG = 1.5` is rewritten to `FLAG = '1'.5`. -/
theorem coerce_rewrites_float_integer_part :
    coerce_numeric_string_literals "FLAG = 1.5".toList w10schema
        = "FLAG = '1'.5".toList
      ∧ coerce_numeric_string_literals "FLAG = 1.5".toList w10schema
        ≠ "FLAG = 1.5".toList := by
  refine ⟨by decide, by decide⟩

/-- Claim C10 (amended): for a text- or bool-kind column the coercion
rewrites every statement made of one `=` comparison — optional word-run
table qualifier, optional double quotes around the case-insensitive column
name, optional whitespace around the `=`, an unsigned integer literal, and
a trailing context that does not continue the digit run and contains no
case-insensitive occurrence of the column name — by quoting the literal;
a one-text-column catalog applies exactly this per-column substitution; a
statement in which no text- or bool-kind column name of the catalog occurs
case-insensitively (in particular a number-kind comparison over disjoint
column names, any other comparison operator, a negative literal) is left
unchanged.  The number-kind clause needs that occurrence condition: the
pattern has no word boundary, so with text column `A` and number column
`BA` the statement `BA = 1` becomes `BA = '1'`; and a float literal is not
left intact: its integer part gets quoted (`FLAG = 1.5` → `FLAG = '1'.5`).
-/
theorem coerce_literal_behavior :
    (∀ col Qs A1 A2 sp1 sp2 ds rest : Str,
        col ≠ [] → (∀ c ∈ col, isWordChar c = true) →
        (Qs = [] ∨ ∃ w, Qs = w ++ ['.'] ∧ w ≠ []
          ∧ ∀ c ∈ w, isWordChar c = true) →
        (A1 = [] ∨ A1 = ['"']) → (A2 = [] ∨ A2 = ['"']) →
        (∀ c ∈ sp1, pySpaceChar c = true) →
        (∀ c ∈ sp2, pySpaceChar c = true) →
        ds ≠ [] → (∀ c ∈ ds, c.isDigit = true) →
        (∀ d, rest.head? = some d → d.isDigit = false) →
        hasCIOcc col rest = false →
        coerceSub col
            ((Qs ++ A1 ++ col ++ A2 ++ sp1 ++ '=' :: sp2) ++ (ds ++ rest))
          = (Qs ++ A1 ++ col ++ A2 ++ sp1 ++ '=' :: sp2)
            ++ ('\'' :: (ds ++ '\'' :: rest)))
  ∧ (∀ (sql tbl d : Str) (al : List Str) (col : Str) (meta : ColMeta),
        (sqltype_kind meta.ctype = SqlKind.ktext
          ∨ sqltype_kind meta.ctype = SqlKind.kbool) →
        coerce_numeric_string_literals sql [(tbl, ⟨d, al, [(col, meta)]⟩)]
          = coerceSub col sql)
  ∧ (∀ (sql : Str) (schema : Schema),
        (∀ pr ∈ schema, ∀ prc ∈ pr.2.columns,
          (sqltype_kind prc.2.ctype = SqlKind.ktext
            ∨ sqltype_kind prc.2.ctype = SqlKind.kbool) →
          prc.1 ≠ [] ∧ hasCIOcc prc.1 sql = false) →
        coerce_numeric_string_literals sql schema = sql)
  ∧ coerce_numeric_string_literals "BA = 1".toList w10bschema
      = "BA = '1'".toList
  ∧ coerce_numeric_string_literals "SELECT * FROM T WHERE FLAG = 1".toList
        w10schema
      = "SELECT * FROM T WHERE FLAG = '1'".toList
  ∧ coerce_numeric_string_literals "SELECT * FROM T WHERE AMOUNT = 1".toList
        w10schema
      = "SELECT * FROM T WHERE AMOUNT = 1".toList
  ∧ coerce_numeric_string_literals
        "T.FLAG = 2 AND \"FLAG\" = 33 AND t.\"flag\"=4".toList w10schema
      = "T.FLAG = '2' AND \"FLAG\" = '33' AND t.\"flag\"='4'".toList
  ∧ coerce_numeric_string_literals
        "FLAG >= 1 AND FLAG < 2 AND FLAG != 3".toList w10schema
      = "FLAG >= 1 AND FLAG < 2 AND FLAG != 3".toList
  ∧ coerce_numeric_string_literals "FLAG = -1".toList w10schema
      = "FLAG = -1".toList
  ∧ coerce_numeric_string_literals "FLAG = 1.5".toList w10schema
      = "FLAG = '1'.5".toList := by
  refine ⟨?_, ?_, ?_, by decide, by decide, by decide, by decide, by decide,
    by decide, by decide⟩
  · intro col Qs A1 A2 sp1 sp2 ds rest hcol hcolw hQ hA1 hA2 hsp1 hsp2 hds
      hdsd hrest hocc
    exact coerceSub_structured col Qs A1 A2 sp1 sp2 ds rest hcol hcolw hQ hA1
      hA2 hsp1 hsp2 hds hdsd hrest hocc
  · intro sql tbl d al col meta h
    exact coerce_single_column sql tbl d al col meta h
  · intro sql schema h
    exact coerce_nochange sql schema h

/-- Claim C10 witness: the universal rewrite conjunct applied to the
qualified, quoted comparison `T."FLAG" = 42` with trailing context
`AND Z = 7`, and the no-occurrence conjunct applied to `SELECT 1`. -/
theorem coerce_literal_behavior_witness :
    coerceSub "FLAG".toList
        (("T".toList ++ ['.'] ++ ['"'] ++ "FLAG".toList ++ ['"'] ++ [' ']
          ++ '=' :: [' ']) ++ ("42".toList ++ " AND Z = 7".toList))
      = ("T".toList ++ ['.'] ++ ['"'] ++ "FLAG".toList ++ ['"'] ++ [' ']
          ++ '=' :: [' '])
        ++ ('\'' :: ("42".toList ++ '\'' :: " AND Z = 7".toList))
      ∧ coerce_numeric_string_literals "SELECT 1".toList w10schema
        = "SELECT 1".toList :=
  ⟨coerce_literal_behavior.1 "FLAG".toList ("T".toList ++ ['.']) ['"'] ['"']
      [' '] [' '] "42".toList " AND Z = 7".toList (by decide) (by decide)
      (Or.inr ⟨"T".toList, rfl, by decide, by decide⟩) (Or.inr rfl)
      (Or.inr rfl) (by decide) (by decide) (by decide) (by decide) (by decide)
      (by decide),
    coerce_literal_behavior.2.2.1 "SELECT 1".toList w10schema (by decide)⟩
